import Mathlib

set_option maxHeartbeats 1000000
set_option maxRecDepth 20000

namespace Harris

/-! ## numerics.h -/

/-- Value computed by `Reflect` in `numerics.h`: clamps a value to a range by
reflecting it about the nearest edge.  The C++ function additionally throws
when a single reflection does not land inside `[lo, hi]`; that error
condition is modelled separately by `ReflectOk`. -/

def Reflect (v lo hi : ℤ) : ℤ :=
  if v > hi then hi + hi - v
  else if v < lo then lo + lo - v
  else v

/-- The no-throw condition of `Reflect` in `numerics.h`: `true` exactly when
the C++ function returns instead of throwing `std::invalid_argument`. -/

def ReflectOk (v lo hi : ℤ) : Bool :=
  if v > hi then decide (lo ≤ hi + hi - v)
  else if v < lo then decide (lo + lo - v ≤ hi)
  else true

/-! ## image.h -/

/-- Pixel grid of an `Image<P>` from `image.h`: a width, a height and the
pixel at each coordinate.  The backing byte buffer and its stride are
modelled separately (`ImageVectorCtorOk`, `ImagePtrCtorOk`) since only the
constructor validation logic concerns them. -/

structure Image (α : Type) where
  width : ℕ
  height : ℕ
  pix : ℤ → ℤ → α

/-- A coordinate lies inside the pixel rectangle of an image. -/

def Image.inRange {α : Type} (img : Image α) (x y : ℤ) : Prop :=
  0 ≤ x ∧ x < img.width ∧ 0 ≤ y ∧ y < img.height

instance {α : Type} (img : Image α) (x y : ℤ) : Decidable (img.inRange x y) := by
  unfold Image.inRange; infer_instance

/-- The `StructureTensor` pixel type from `image.h`: three floats. -/

structure StructureTensor (α : Type) where
  xx : α
  yy : α
  xy : α

/-- The `StructureTensor(float s_xx, float s_yy, float s_xy)` constructor from
`image.h`: it assigns `xx := s_xx`, `yy := s_yy`, `xy := s_xy`, in that
parameter order. -/

def StructureTensor.create {α : Type} (s_xx s_yy s_xy : α) : StructureTensor α :=
  ⟨s_xx, s_yy, s_xy⟩

/-- Validation of `Image(std::vector<uint8_t> data, int width, int height,
size_t stride)` from `image.h`: `true` iff the constructor does not throw.
Note that the stride check in the source compares against the hard-coded
constant `width*4`, never consulting `sizeof(P)`. -/

def ImageVectorCtorOk (dataSize width height stride : ℤ) : Bool :=
  decide (0 < width) && decide (0 < height) &&
    !decide (stride < width * 4) && !decide (dataSize < stride * height)

/-- Validation of `Image(const uint8_t* data, int width, int height, size_t
stride)` from `image.h`: `true` iff the constructor does not throw.  This
overload does compare the stride against `width*sizeof(P)`. -/

def ImagePtrCtorOk (elemSize width height stride : ℤ) : Bool :=
  decide (0 < width) && decide (0 < height) && !decide (stride < width * elemSize)

/-! ## Coordinate list helpers

The C++ windowed loops iterate an `int` index over an inclusive range and
`continue` past out-of-range coordinates; these lists model that iteration
order. -/

/-- The list `a, a+1, …, a+n-1` of `n` consecutive integers. -/

def intRange (a : ℤ) (n : ℕ) : List ℤ :=
  (List.range n).map (fun (i : ℕ) => a + (i : ℤ))

/-- Row-major list of all in-range coordinates of a `width × height` image,
the iteration order of `Map`, `Reduce` and friends in `map_2d.h`. -/

def coords (w h : ℕ) : List (ℤ × ℤ) :=
  (List.range h).flatMap (fun (y : ℕ) => (List.range w).map (fun (x : ℕ) => ((x : ℤ), (y : ℤ))))

/-! ## map_2d.h -/

/-- `Map` from `map_2d.h`: applies a pure per-pixel function, producing an
image of the same dimensions. -/

def Map {α β : Type} (src : Image α) (f : α → β) : Image β :=
  ⟨src.width, src.height, fun x y => f (src.pix x y)⟩

/-- `Reduce` from `map_2d.h`: folds every pixel (row-major) into an
accumulator. -/

def Reduce {α β : Type} (src : Image α) (init : β) (f : β → α → β) : β :=
  (coords src.width src.height).foldl (fun acc p => f acc (src.pix p.1 p.2)) init

/-! ## filter_2d.h -/

/-- `FilterKernel` from `filter_2d.h`: dimensions plus the weight at each
kernel cell (`val ky kx` is `RowPtr(ky)[kx]`, i.e. `data[ky*width + kx]`). -/

structure FilterKernel (α : Type) where
  width : ℕ
  height : ℕ
  val : ℕ → ℕ → α

/-- `Filter2d` from `filter_2d.h`: 2d cross-correlation with reflected
out-of-range coordinates.  The C++ accumulation `dest_pixel += src_pixel *
kernel_value` over the two kernel loops is written as a double finite sum
(addition of field elements is associative and commutative). -/

def Filter2d {α : Type} [LinearOrderedCommRing α] (src : Image α) (kernel : FilterKernel α) :
    Image α :=
  ⟨src.width, src.height, fun x y =>
    ∑ ky ∈ Finset.range kernel.height, ∑ kx ∈ Finset.range kernel.width,
      src.pix (Reflect (x + kx - (kernel.width / 2 : ℕ)) 0 ((src.width : ℤ) - 1))
          (Reflect (y + ky - (kernel.height / 2 : ℕ)) 0 ((src.height : ℤ) - 1)) *
        kernel.val ky kx⟩

/-- All `Reflect` calls performed by `Filter2d` on a `w × h` image with a
`kw × kh` kernel satisfy the no-throw condition.  (`Filter2d` reflects
`dest_y + kernel_y - kernel_height/2` against `[0, h-1]` for every
`(dest_y, kernel_y)`, and likewise in x.) -/

def Filter2dReflectOk (w h kw kh : ℕ) : Bool :=
  ((List.range h).all fun y => (List.range kh).all fun ky =>
    ReflectOk ((y : ℤ) + ky - (kh / 2 : ℕ)) 0 ((h : ℤ) - 1)) &&
  ((List.range w).all fun x => (List.range kw).all fun kx =>
    ReflectOk ((x : ℤ) + kx - (kw / 2 : ℕ)) 0 ((w : ℤ) - 1))

/-- All `Reflect` calls performed by `MapWindowed` (and `CombineWindowed`)
from `map_2d.h` on a `w × h` image with a square window of odd size
`windowSize` satisfy the no-throw condition.  (`MapWindowed` reflects every
`window_y ∈ [dest_y - half, dest_y + half]` against `[0, h-1]`, and likewise
in x.) -/

def MapWindowedReflectOk (w h windowSize : ℕ) : Bool :=
  ((List.range h).all fun y => (intRange ((y : ℤ) - (windowSize / 2 : ℕ)) (2 * (windowSize / 2) + 1)).all
    fun wy => ReflectOk wy 0 ((h : ℤ) - 1)) &&
  ((List.range w).all fun x => (intRange ((x : ℤ) - (windowSize / 2 : ℕ)) (2 * (windowSize / 2) + 1)).all
    fun wx => ReflectOk wx 0 ((w : ℤ) - 1))

/-! ## harris_corner_detector.h: kernels and pipeline stages -/

/-- The weight list `{1.f, 0.f, -1.f}` of the two Sobel differentiation
kernels in `harris_corner_detector.h`, indexed by position. -/

def sobelWeight {α : Type} [LinearOrderedCommRing α] : ℕ → α
  | 0 => 1
  | 1 => 0
  | 2 => -1
  | _ => 0

/-- The kernel `FilterKernel sobel_x(3, 1, {1.f, 0.f, -1.f})`. -/

def sobelXKernel {α : Type} [LinearOrderedCommRing α] : FilterKernel α :=
  ⟨3, 1, fun _ kx => sobelWeight kx⟩

/-- The kernel `FilterKernel sobel_y(1, 3, {1.f, 0.f, -1.f})`. -/

def sobelYKernel {α : Type} [LinearOrderedCommRing α] : FilterKernel α :=
  ⟨1, 3, fun ky _ => sobelWeight ky⟩

/-- `SobelX` from `harris_corner_detector.h`. -/

def SobelX {α : Type} [LinearOrderedCommRing α] (src : Image α) : Image α :=
  Filter2d src sobelXKernel

/-- `SobelY` from `harris_corner_detector.h`. -/

def SobelY {α : Type} [LinearOrderedCommRing α] (src : Image α) : Image α :=
  Filter2d src sobelYKernel

/-- The unnormalized Gaussian evaluated by the kernel loop of
`GaussianKernel(float sigma, int size)` in `harris_corner_detector.h`:
`exp(-(x_f*x_f + y_f*y_f) / (2*sigma*sigma))` at offsets `x_f = x - size/2`,
`y_f = y - size/2` from the kernel center. -/

noncomputable def gaussWeight (sigma : ℝ) (size : ℕ) (y x : ℕ) : ℝ :=
  Real.exp (-((((x : ℤ) - (size / 2 : ℕ) : ℤ) : ℝ) * (((x : ℤ) - (size / 2 : ℕ) : ℤ) : ℝ) +
      (((y : ℤ) - (size / 2 : ℕ) : ℤ) : ℝ) * (((y : ℤ) - (size / 2 : ℕ) : ℤ) : ℝ)) /
    (2 * sigma * sigma))

/-- The accumulated `sum` of all unnormalized weights in
`GaussianKernel(float sigma, int size)` (the sequential C++ accumulation is
written as a finite sum). -/

noncomputable def gaussTotal (sigma : ℝ) (size : ℕ) : ℝ :=
  ∑ y ∈ Finset.range size, ∑ x ∈ Finset.range size, gaussWeight sigma size y x

/-- `GaussianKernel(float sigma, int size)` from `harris_corner_detector.h`:
evaluates the unnormalized Gaussian at each offset from the kernel center
and divides every weight by the total. -/

noncomputable def GaussianKernelSigma (sigma : ℝ) (size : ℕ) : FilterKernel ℝ :=
  ⟨size, size, fun ky kx => gaussWeight sigma size ky kx / gaussTotal sigma size⟩

/-- `Gaussian(src, sigma, size)` from `harris_corner_detector.h`. -/

noncomputable def Gaussian (src : Image ℝ) (sigma : ℝ) (size : ℕ) : Image ℝ :=
  Filter2d src (GaussianKernelSigma sigma size)

/-- The smoothed image `i_smooth = Gaussian(src, 1.0f, smoothing_size)`
computed by `StructureTensorImage`. -/

noncomputable def SmoothedImage (src : Image ℝ) (smoothing_size : ℕ) : Image ℝ :=
  Gaussian src 1 smoothing_size

/-- The derivative image `i_x = SobelX(i_smooth)` computed by
`StructureTensorImage`. -/

noncomputable def IxImage (src : Image ℝ) (smoothing_size : ℕ) : Image ℝ :=
  SobelX (SmoothedImage src smoothing_size)

/-- The derivative image `i_y = SobelY(i_smooth)` computed by
`StructureTensorImage`. -/

noncomputable def IyImage (src : Image ℝ) (smoothing_size : ℕ) : Image ℝ :=
  SobelY (SmoothedImage src smoothing_size)

/-- A window read of a derivative image inside the structure-tensor loop:
`i.RowPtr(Reflect(b, 0, max_y))[Reflect(a, 0, max_x)]`, where the reflection
bounds come from the source image dimensions (equal to the derivative
image's own dimensions). -/

noncomputable def windowRead (img : Image ℝ) (a b : ℤ) : ℝ :=
  img.pix (Reflect a 0 ((img.width : ℤ) - 1)) (Reflect b 0 ((img.height : ℤ) - 1))

/-- `StructureTensorImage(src, smoothing_size, structure_size)` from
`harris_corner_detector.h`: smooth with a sigma-1 Gaussian, take Sobel
derivatives, then accumulate the three products over the reflected
`structure_size` window.  The three C++ accumulators `s_xx`, `s_xy`, `s_yy`
become three finite sums over the window (the loops run `window_y` from
`dest_y - half_window` to `dest_y + half_window`, i.e. `2*half_window + 1`
values, and likewise in x).  The result pixel is built exactly as in the
source: `StructureTensor(s_xx, s_xy, s_yy)` — note the constructor's
parameters are `(s_xx, s_yy, s_xy)`. -/

noncomputable def StructureTensorImage (src : Image ℝ) (smoothing_size structure_size : ℕ) :
    Image (StructureTensor ℝ) :=
  let i_x := IxImage src smoothing_size
  let i_y := IyImage src smoothing_size
  let half : ℤ := (structure_size / 2 : ℕ)
  let n : ℕ := 2 * (structure_size / 2) + 1
  ⟨src.width, src.height, fun x y =>
    StructureTensor.create
      (∑ j ∈ Finset.range n, ∑ i ∈ Finset.range n,
        windowRead i_x (x - half + i) (y - half + j) *
          windowRead i_x (x - half + i) (y - half + j))
      (∑ j ∈ Finset.range n, ∑ i ∈ Finset.range n,
        windowRead i_x (x - half + i) (y - half + j) *
          windowRead i_y (x - half + i) (y - half + j))
      (∑ j ∈ Finset.range n, ∑ i ∈ Finset.range n,
        windowRead i_y (x - half + i) (y - half + j) *
          windowRead i_y (x - half + i) (y - half + j))⟩

/-- The structure-tensor stage as the specification states it: the same
window sums, but with `yy` holding the window sum of `Iy·Iy` and `xy` the
window sum of `Ix·Iy` (fields assigned by name, as the spec and the sibling
`StructureTensorImageUsingCombine`/`HarrisCpp` versions do). -/

noncomputable def ClaimedStructureTensorImage (src : Image ℝ)
    (smoothing_size structure_size : ℕ) : Image (StructureTensor ℝ) :=
  let i_x := IxImage src smoothing_size
  let i_y := IyImage src smoothing_size
  let half : ℤ := (structure_size / 2 : ℕ)
  let n : ℕ := 2 * (structure_size / 2) + 1
  ⟨src.width, src.height, fun x y =>
    { xx := ∑ j ∈ Finset.range n, ∑ i ∈ Finset.range n,
        windowRead i_x (x - half + i) (y - half + j) *
          windowRead i_x (x - half + i) (y - half + j)
      yy := ∑ j ∈ Finset.range n, ∑ i ∈ Finset.range n,
        windowRead i_y (x - half + i) (y - half + j) *
          windowRead i_y (x - half + i) (y - half + j)
      xy := ∑ j ∈ Finset.range n, ∑ i ∈ Finset.range n,
        windowRead i_x (x - half + i) (y - half + j) *
          windowRead i_y (x - half + i) (y - half + j) }⟩

/-! ## harris_corner_detector.h: non-maximal suppression

`NonMaxSuppression` scans the window row by row.  The inner x loop breaks as
soon as it sees a strictly greater pixel (`NmsRowScan` returns 0 at that
point); the outer y loop's condition `dest_pixel > 0.0f && …` stops scanning
once the pixel has been zeroed (`NmsWinScan` recurses only while the
accumulator is positive).  Out-of-range window coordinates are skipped by
`continue`, modelled by filtering the coordinate lists. -/

/-- The inner window loop of `NonMaxSuppression` over one row: returns 0 and
breaks at the first window pixel strictly greater than the accumulator. -/

def NmsRowScan {α : Type} [LinearOrderedCommRing α] (d : α) : List α → α
  | [] => d
  | p :: ps => if d < p then 0 else NmsRowScan d ps

/-- The outer window loop of `NonMaxSuppression`: processes each row while
the accumulator is still positive. -/

def NmsWinScan {α : Type} [LinearOrderedCommRing α] (d : α) : List (List α) → α
  | [] => d
  | row :: rows => if 0 < d then NmsWinScan (NmsRowScan d row) rows else d

/-- The in-range window column coordinates scanned around `x`:
`[x - half, x + half]` restricted to `[0, w)`. -/

def windowCoords (x : ℤ) (half : ℕ) (w : ℕ) : List ℤ :=
  (intRange (x - half) (2 * half + 1)).filter
    (fun v => decide (0 ≤ v) && decide (v < (w : ℤ)))

/-- `NonMaxSuppression(src, window_size, threshold)` from
`harris_corner_detector.h`: pixels below the threshold become 0 immediately;
otherwise the pixel becomes 1 when the window scan leaves the accumulator
positive and 0 otherwise. -/

def NonMaxSuppression {α : Type} [LinearOrderedCommRing α] (src : Image α)
    (window_size : ℕ) (threshold : α) : Image α :=
  let half : ℕ := window_size / 2
  ⟨src.width, src.height, fun x y =>
    let v := src.pix x y
    if v < threshold then 0
    else
      let rows : List (List α) := (windowCoords y half src.height).map
        (fun wy => (windowCoords x half src.width).map (fun wx => src.pix wx wy))
      if 0 < NmsWinScan v rows then 1 else 0⟩

/-- The suppression rule exactly as the specification states it: a pixel at
or above the threshold is suppressed to 0 when some other window pixel has a
strictly greater response and is marked 1 otherwise; a pixel below the
threshold is 0. -/

def NonMaxSuppressionClaimed {α : Type} [LinearOrderedCommRing α] (src : Image α)
    (window_size : ℕ) (threshold : α) : Image α :=
  let half : ℕ := window_size / 2
  ⟨src.width, src.height, fun x y =>
    let v := src.pix x y
    if v < threshold then 0
    else if (windowCoords y half src.height).all (fun wy =>
        (windowCoords x half src.width).all (fun wx => decide (src.pix wx wy ≤ v)))
      then 1 else 0⟩

/-! ## harris_corner_detector.h: the full pipeline -/

/-- The Harris response of one structure tensor, the `Map` functor inside
`HarrisCorners`: `(s.xx * s.yy - s.xy * s.xy) - harris_k * (s.xx + s.yy) *
(s.xx + s.yy)`. -/

def HarrisResponse {α : Type} [LinearOrderedCommRing α] (harris_k : α)
    (s : StructureTensor α) : α :=
  (s.xx * s.yy - s.xy * s.xy) - harris_k * (s.xx + s.yy) * (s.xx + s.yy)

/-- The response image `r` computed inside `HarrisCorners`. -/

noncomputable def HarrisResponseImage (src : Image ℝ) (smoothing_size structure_size : ℕ)
    (harris_k : ℝ) : Image ℝ :=
  Map (StructureTensorImage src smoothing_size structure_size) (HarrisResponse harris_k)

/-- The global maximum response `max_r` computed inside `HarrisCorners`:
`Reduce(r, 0.0f, max)`. -/

noncomputable def HarrisMaxResponse (src : Image ℝ) (smoothing_size structure_size : ℕ)
    (harris_k : ℝ) : ℝ :=
  Reduce (HarrisResponseImage src smoothing_size structure_size harris_k) 0
    (fun acc p => max acc p)

/-- `HarrisCorners` from `harris_corner_detector.h`: structure tensor,
response map, global maximum, then non-maximal suppression at threshold
`max_r * threshold_ratio` (the ratio parameter is written `thresholdRat`
here). -/

noncomputable def HarrisCorners (src : Image ℝ) (smoothing_size structure_size : ℕ)
    (harris_k thresholdRat : ℝ) (suppression_size : ℕ) : Image ℝ :=
  let r := HarrisResponseImage src smoothing_size structure_size harris_k
  let max_r := HarrisMaxResponse src smoothing_size structure_size harris_k
  NonMaxSuppression r suppression_size (max_r * thresholdRat)

/-- Number of pixels marked `1` in an image. -/

noncomputable def countOnes {α : Type} [LinearOrderedCommRing α] (img : Image α) : ℕ :=
  ((coords img.width img.height).filter (fun p => decide (img.pix p.1 p.2 = 1))).length

/-! ## harris_cpp.h -/

/-- Modelled from the spec: `ReduceRange` — the `map_2d` range-reduction
helper used by `HarrisCpp` (`MapWithIndex`, `CombineWithIndex`, `Point`,
`Range` and `ReduceRange` are not among the sources under `src/`).  Per
spec §3 (`Range`: an inclusive rectangular window) and §4.2 ("Windowed
reduce over an explicit rectangular range (reflecting out-of-range
coordinates): folds all pixels in a window into an accumulator"), it folds
the accumulator over every pixel of the inclusive coordinate range in
row-major order, reflecting out-of-range coordinates. -/

def ReduceRange {α β : Type} [LinearOrderedCommRing α] (src : Image α)
    (x1 y1 x2 y2 : ℤ) (init : β) (f : β → α → β) : β :=
  (intRange y1 (y2 - y1 + 1).toNat).foldl
    (fun acc wy =>
      (intRange x1 (x2 - x1 + 1).toNat).foldl
        (fun acc wx =>
          f acc (src.pix (Reflect wx 0 ((src.width : ℤ) - 1))
            (Reflect wy 0 ((src.height : ℤ) - 1))))
        acc)
    init

/-- `HarrisCpp::NonMaxSuppression(src, threshold)` from `harris_cpp.h`: for
each pixel, 0 when below the threshold, otherwise the value of
`ReduceRange(src, range, src_pixel, λ acc p, acc < p ? 0 : acc)` over the
suppression window — the raw accumulator, with no final binarization. -/

def HarrisCppNonMaxSuppression {α : Type} [LinearOrderedCommRing α] (src : Image α)
    (suppression_size : ℕ) (threshold : α) : Image α :=
  let half : ℤ := (suppression_size / 2 : ℕ)
  ⟨src.width, src.height, fun x y =>
    let v := src.pix x y
    if v < threshold then 0
    else ReduceRange src (x - half) (y - half) (x + half) (y + half) v
      (fun acc p => if acc < p then 0 else acc)⟩

/-! ## image.h / image_conversion.h: Argb32 and luminance conversion -/

/-- The `Argb32` pixel from `image.h`: a `uint32_t` with layout
`0xAARRGGBB`. -/

structure Argb32 where
  data : ℕ

/-- `alpha()`: `data >> 24 & 0xff`. -/

def Argb32.alpha (p : Argb32) : ℕ := p.data >>> 24 &&& 0xff

/-- `red()`: `data >> 16 & 0xff`. -/

def Argb32.red (p : Argb32) : ℕ := p.data >>> 16 &&& 0xff

/-- `green()`: `data >> 8 & 0xff`. -/

def Argb32.green (p : Argb32) : ℕ := p.data >>> 8 &&& 0xff

/-- `blue()`: `data & 0xff`. -/

def Argb32.blue (p : Argb32) : ℕ := p.data &&& 0xff

/-- `RedFloat()`: `red() / 255.0f`. -/

def Argb32.redFloat {α : Type} [LinearOrderedField α] (p : Argb32) : α :=
  (p.red : α) / 255

/-- `GreenFloat()`: `green() / 255.0f`. -/

def Argb32.greenFloat {α : Type} [LinearOrderedField α] (p : Argb32) : α :=
  (p.green : α) / 255

/-- `BlueFloat()`: `blue() / 255.0f`. -/

def Argb32.blueFloat {α : Type} [LinearOrderedField α] (p : Argb32) : α :=
  (p.blue : α) / 255

/-- `ToFloat` from `image_conversion.h`: per-pixel Rec.709 luma
`r * 0.2126f + g * 0.7152f + b * 0.0722f` of the float color components. -/

def ToFloat {α : Type} [LinearOrderedField α] (src : Image Argb32) : Image α :=
  Map src (fun p =>
    p.redFloat * (2126 / 10000 : α) + p.greenFloat * (7152 / 10000 : α) +
      p.blueFloat * (722 / 10000 : α))

/-! ## filter_2d.h: `GaussianKernel(int size)` with NaN tracking

The one-argument `GaussianKernel` in `filter_2d.h` derives
`sigma = (size - 1) / 4.0f`.  At `size = 1` this gives `sigma = 0` and the
kernel evaluation computes `exp(-0.0f / 0.0f) = NaN` in IEEE float
arithmetic, and the NaN then propagates through the sum and the
normalization.  To keep that behaviour observable the weight list is
modelled over `Option ℝ` with `none` playing the role of NaN: the only
division whose divisor can be zero here is `-0/0` (numerator `-(x_f² +
y_f²)` vanishes whenever `2·sigma²` does, since `sigma = 0` forces
`size = 1` and hence `x_f = y_f = 0`), which IEEE defines as NaN. -/

/-- Division producing `none` (NaN) when the divisor is zero. -/

noncomputable def ODiv (a b : Option ℝ) : Option ℝ :=
  match a, b with
  | some x, some y => if y = 0 then none else some (x / y)
  | _, _ => none

/-- Addition propagating `none` (NaN). -/

def OAdd (a b : Option ℝ) : Option ℝ :=
  match a, b with
  | some x, some y => some (x + y)
  | _, _ => none

/-- The sequential C++ accumulation `sum += value` starting from `0.0f`,
with NaN propagation. -/

def OSum (l : List (Option ℝ)) : Option ℝ :=
  l.foldl OAdd (some 0)

/-- The sigma derived by `GaussianKernel(int size)` in `filter_2d.h`:
`(size - 1) / 4.0f`. -/

noncomputable def gaussSizeSigma (size : ℕ) : ℝ := ((size : ℝ) - 1) / 4

/-- One unnormalized weight pushed by the kernel loop of
`GaussianKernel(int size)`: `exp(-(x_f*x_f + y_f*y_f) / (2*sigma*sigma))`,
with the division NaN-tracked. -/

noncomputable def gaussRawValue (size : ℕ) (y x : ℕ) : Option ℝ :=
  Option.map Real.exp
    (ODiv (some (-((((x : ℤ) - (size / 2 : ℕ) : ℤ) : ℝ) *
          (((x : ℤ) - (size / 2 : ℕ) : ℤ) : ℝ) +
        (((y : ℤ) - (size / 2 : ℕ) : ℤ) : ℝ) *
          (((y : ℤ) - (size / 2 : ℕ) : ℤ) : ℝ))))
      (some (2 * gaussSizeSigma size * gaussSizeSigma size)))

/-- The row-major list of unnormalized weights pushed by the `y`/`x` loops
of `GaussianKernel(int size)`. -/

noncomputable def gaussRawList (size : ℕ) : List (Option ℝ) :=
  (List.range size).flatMap
    (fun (y : ℕ) => (List.range size).map (fun (x : ℕ) => gaussRawValue size y x))

/-- The weight list built by `GaussianKernel(int size)` from `filter_2d.h`:
the unnormalized Gaussian at each offset from center, then each weight
divided by the accumulated total. -/

noncomputable def GaussianKernelValues (size : ℕ) : List (Option ℝ) :=
  (gaussRawList size).map (fun v => ODiv v (OSum (gaussRawList size)))

/-- The plain real values of the unnormalized weights (meaningful whenever
`sigma ≠ 0`, i.e. no NaN is produced). -/

noncomputable def gaussRealList (size : ℕ) : List ℝ :=
  (List.range size).flatMap
    (fun (y : ℕ) => (List.range size).map
      (fun (x : ℕ) =>
        Real.exp (-((((x : ℤ) - (size / 2 : ℕ) : ℤ) : ℝ) *
              (((x : ℤ) - (size / 2 : ℕ) : ℤ) : ℝ) +
            (((y : ℤ) - (size / 2 : ℕ) : ℤ) : ℝ) *
              (((y : ℤ) - (size / 2 : ℕ) : ℤ) : ℝ)) /
          (2 * gaussSizeSigma size * gaussSizeSigma size))))

/-! ## Characterizing the window scans of `NonMaxSuppression` -/

/-! ## Folding a running maximum (`Reduce` with `std::max`) -/

/-! ## Sum of the sigma-form Gaussian kernel weights -/

/-! ## Behaviour of `Filter2d` -/

/-! ## Dimensions of the pipeline stages -/

/-! ## The pipeline on an all-zero image -/

/-! ## The `GaussianKernel(int size)` weights for `size ≥ 3` -/

/-! ## The structure-tensor bug witness: a vertical ramp image -/

/-- An `11 × 11` vertical ramp image: the pixel at `(x, y)` is `y`. -/

def ramp11 : Image ℝ := ⟨11, 11, fun _ y => (y : ℝ)⟩

/-! ## Totality of the reflections under the exact window bound -/

/-! ## Witness images for the claims -/

/-- A `1 × 1` all-zero response image over the integer subring (integer
values are exactly representable floats, so the generic operators coincide
with their `ℝ` instantiation on them). -/

def zeroImgZ : Image ℤ := ⟨1, 1, fun _ _ => 0⟩

/-- A `5 × 5` response image holding the constant `7`. -/

def constImgZ : Image ℤ := ⟨5, 5, fun _ _ => 7⟩

/-- A `1 × 1` response image holding `5`. -/

def fiveImgZ : Image ℤ := ⟨1, 1, fun _ _ => 5⟩

/-! ## The claims -/

/-- A `1 × 1` all-zero real image. -/

def zeroImgR : Image ℝ := ⟨1, 1, fun _ _ => 0⟩

/-- A `1 × 1` identity kernel over the integer subring. -/

def oneKernelZ : FilterKernel ℤ := ⟨1, 1, fun _ _ => 1⟩

/-- A `1 × 1` image holding the constant 42. -/

def const42Z : Image ℤ := ⟨1, 1, fun _ _ => 42⟩

/-- A `3 × 3` all-zero real image. -/

def zeroImg3R : Image ℝ := ⟨3, 3, fun _ _ => 0⟩

/-- A `1 × 1` color image with alpha 255. -/

def argbA : Image Argb32 := ⟨1, 1, fun _ _ => ⟨0xFF112233⟩⟩

/-- The same color image with alpha 0. -/

def argbB : Image Argb32 := ⟨1, 1, fun _ _ => ⟨0x00112233⟩⟩

/-!
Verification of the Harris corner detector (`harris` repository).

This file gives a shallow embedding of the C++ sources in `src/` and proves
or refutes the specification claims against it.  Images are modelled as a
width, a height and a total pixel function `ℤ → ℤ → α`; the C++ code only
ever reads coordinates inside `[0, width) × [0, height)` (after reflection),
and every theorem below either proves that the accessed coordinates are in
range or takes hypotheses matching a configuration for which the C++ code
does not throw.  Machine `float` arithmetic is modelled by exact arithmetic
in a linear ordered field (instantiated at `ℚ` for concrete evaluation and
at `ℝ` where `std::exp` is involved); for the one place where the C++ code
divides by zero (the `sigma = 0` Gaussian kernel) a NaN-aware `Option ℝ`
model is used instead.
-/

theorem reflect_of_mem {v lo hi : ℤ} (h1 : lo ≤ v) (h2 : v ≤ hi) :
    Reflect v lo hi = v := by
  unfold Reflect
  rw [if_neg (by omega), if_neg (by omega)]

theorem reflect_mem {v lo hi : ℤ} (h1 : lo - (hi - lo) ≤ v)
    (h2 : v ≤ hi + (hi - lo)) : lo ≤ Reflect v lo hi ∧ Reflect v lo hi ≤ hi := by
  unfold Reflect
  split
  · omega
  · split <;> omega

theorem reflectOk_of_near {v lo hi : ℤ} (h1 : lo - (hi - lo) ≤ v)
    (h2 : v ≤ hi + (hi - lo)) : ReflectOk v lo hi = true := by
  unfold ReflectOk
  split
  · simp only [decide_eq_true_eq]; omega
  · split
    · simp only [decide_eq_true_eq]; omega
    · rfl

theorem mem_intRange {a : ℤ} {n : ℕ} {v : ℤ} :
    v ∈ intRange a n ↔ a ≤ v ∧ v < a + n := by
  unfold intRange
  simp only [List.mem_map, List.mem_range]
  constructor
  · rintro ⟨i, hi, rfl⟩; omega
  · rintro ⟨h1, h2⟩
    refine ⟨(v - a).toNat, by omega, by omega⟩

theorem mem_coords {w h : ℕ} {p : ℤ × ℤ} :
    p ∈ coords w h ↔ 0 ≤ p.1 ∧ p.1 < w ∧ 0 ≤ p.2 ∧ p.2 < h := by
  unfold coords
  simp only [List.mem_flatMap, List.mem_map, List.mem_range]
  constructor
  · rintro ⟨y, hy, x, hx, rfl⟩
    simp only []
    omega
  · rintro ⟨h1, h2, h3, h4⟩
    refine ⟨p.2.toNat, by omega, p.1.toNat, by omega, ?_⟩
    obtain ⟨px, py⟩ := p
    simp only [] at h1 h3 ⊢
    congr 1 <;> omega

theorem mem_windowCoords {x : ℤ} {half w : ℕ} {v : ℤ} :
    v ∈ windowCoords x half w ↔ x - half ≤ v ∧ v ≤ x + half ∧ 0 ≤ v ∧ v < w := by
  unfold windowCoords
  simp only [List.mem_filter, mem_intRange, Bool.and_eq_true, decide_eq_true_eq]
  omega

theorem nmsRowScan_eq {α : Type} [LinearOrderedCommRing α] (d : α) (l : List α) :
    NmsRowScan d l = if ∃ p ∈ l, d < p then 0 else d := by
  induction l with
  | nil => simp [NmsRowScan]
  | cons p ps ih =>
    by_cases hp : d < p
    · rw [NmsRowScan, if_pos hp, if_pos ⟨p, List.mem_cons_self p ps, hp⟩]
    · rw [NmsRowScan, if_neg hp, ih]
      refine if_congr ?_ rfl rfl
      constructor
      · rintro ⟨q, hq, hdq⟩
        exact ⟨q, List.mem_cons_of_mem p hq, hdq⟩
      · rintro ⟨q, hq, hdq⟩
        rcases List.mem_cons.mp hq with rfl | hq2
        · exact absurd hdq hp
        · exact ⟨q, hq2, hdq⟩

theorem nmsWinScan_of_nonpos {α : Type} [LinearOrderedCommRing α] (d : α)
    (rows : List (List α)) (hd : ¬ 0 < d) : NmsWinScan d rows = d := by
  cases rows with
  | nil => rfl
  | cons r rs => rw [NmsWinScan, if_neg hd]

theorem nmsWinScan_of_pos {α : Type} [LinearOrderedCommRing α] (d : α)
    (rows : List (List α)) (hd : 0 < d) :
    NmsWinScan d rows = if ∃ r ∈ rows, ∃ p ∈ r, d < p then 0 else d := by
  induction rows with
  | nil =>
    rw [NmsWinScan, if_neg]
    rintro ⟨r, hr, -⟩
    exact (List.not_mem_nil r) hr
  | cons r rs ih =>
    rw [NmsWinScan, if_pos hd, nmsRowScan_eq]
    by_cases hr : ∃ p ∈ r, d < p
    · rw [if_pos hr, nmsWinScan_of_nonpos 0 rs (lt_irrefl 0), if_pos]
      obtain ⟨p, hp, hdp⟩ := hr
      exact ⟨r, List.mem_cons_self r rs, p, hp, hdp⟩
    · rw [if_neg hr, ih]
      refine if_congr ?_ rfl rfl
      constructor
      · rintro ⟨r2, hr2, hp⟩
        exact ⟨r2, List.mem_cons_of_mem r hr2, hp⟩
      · rintro ⟨r2, hr2, hp⟩
        rcases List.mem_cons.mp hr2 with rfl | hr3
        · exact absurd hp hr
        · exact ⟨r2, hr3, hp⟩

/-- Below the threshold, `NonMaxSuppression` writes 0 without inspecting the
window. -/
theorem nms_pix_of_lt {α : Type} [LinearOrderedCommRing α] (src : Image α)
    (window_size : ℕ) (threshold : α) (x y : ℤ)
    (ht : src.pix x y < threshold) :
    (NonMaxSuppression src window_size threshold).pix x y = 0 := by
  show (if src.pix x y < threshold then 0 else _) = 0
  rw [if_pos ht]

/-- Every `NonMaxSuppression` output pixel is 0 or 1. -/
theorem nms_pix_mem {α : Type} [LinearOrderedCommRing α] (src : Image α)
    (window_size : ℕ) (threshold : α) (x y : ℤ) :
    (NonMaxSuppression src window_size threshold).pix x y = 0 ∨
      (NonMaxSuppression src window_size threshold).pix x y = 1 := by
  have h : (NonMaxSuppression src window_size threshold).pix x y =
      (if src.pix x y < threshold then (0 : α)
       else if 0 < NmsWinScan (src.pix x y)
           ((windowCoords y (window_size / 2) src.height).map
             (fun wy => (windowCoords x (window_size / 2) src.width).map
               (fun wx => src.pix wx wy)))
         then 1 else 0) := rfl
  rw [h]
  split
  · exact Or.inl rfl
  · split
    · exact Or.inr rfl
    · exact Or.inl rfl

/-- An output pixel of `NonMaxSuppression` is 1 exactly when its value is at
least the threshold, strictly positive, and no window pixel whose
coordinates are in range has a strictly greater value.  In particular
equal-valued neighbors never suppress each other, and a pixel whose value is
not strictly positive is written as 0 even when it is at or above the
threshold and maximal in its window. -/
theorem nms_pix_one_iff {α : Type} [LinearOrderedCommRing α] (src : Image α)
    (window_size : ℕ) (threshold : α) (x y : ℤ) :
    (NonMaxSuppression src window_size threshold).pix x y = 1 ↔
      (threshold ≤ src.pix x y ∧ 0 < src.pix x y ∧
        ∀ wy ∈ windowCoords y (window_size / 2) src.height,
          ∀ wx ∈ windowCoords x (window_size / 2) src.width,
            src.pix wx wy ≤ src.pix x y) := by
  show (if src.pix x y < threshold then 0
    else if 0 < NmsWinScan (src.pix x y) ((windowCoords y (window_size / 2) src.height).map
      (fun wy => (windowCoords x (window_size / 2) src.width).map
        (fun wx => src.pix wx wy))) then (1 : α) else 0) = 1 ↔ _
  by_cases ht : src.pix x y < threshold
  · rw [if_pos ht]
    simp only [(zero_ne_one' α), false_iff]
    rintro ⟨hle, -⟩
    exact absurd ht (not_lt.mpr hle)
  · rw [if_neg ht]
    by_cases hv : 0 < src.pix x y
    · rw [nmsWinScan_of_pos _ _ hv]
      by_cases hex : ∃ r ∈ (windowCoords y (window_size / 2) src.height).map
          (fun wy => (windowCoords x (window_size / 2) src.width).map
            (fun wx => src.pix wx wy)), ∃ p ∈ r, src.pix x y < p
      · rw [if_pos hex, if_neg (lt_irrefl 0)]
        simp only [(zero_ne_one' α), false_iff]
        rintro ⟨-, -, hall⟩
        obtain ⟨r, hr, p, hp, hdp⟩ := hex
        obtain ⟨wy, hwy, rfl⟩ := List.mem_map.mp hr
        obtain ⟨wx, hwx, rfl⟩ := List.mem_map.mp hp
        exact absurd (hall wy hwy wx hwx) (not_le.mpr hdp)
      · rw [if_neg hex, if_pos hv]
        simp only [true_iff]
        refine ⟨not_lt.mp ht, hv, fun wy hwy wx hwx => ?_⟩
        by_contra hgt
        exact hex ⟨_, List.mem_map_of_mem _ hwy, _, List.mem_map_of_mem _ hwx,
          not_le.mp hgt⟩
    · rw [nmsWinScan_of_nonpos _ _ hv, if_neg hv]
      simp only [(zero_ne_one' α), false_iff]
      rintro ⟨-, h0, -⟩
      exact hv h0

theorem foldl_max_init_le {α β : Type} [LinearOrder α] (g : β → α) (l : List β)
    (init : α) : init ≤ l.foldl (fun a b => max a (g b)) init := by
  induction l generalizing init with
  | nil => exact le_refl init
  | cons b bs ih => exact le_trans (le_max_left init (g b)) (ih (max init (g b)))

theorem foldl_max_le {α β : Type} [LinearOrder α] (g : β → α) (l : List β)
    (init : α) {p : β} (hp : p ∈ l) :
    g p ≤ l.foldl (fun a b => max a (g b)) init := by
  induction l generalizing init with
  | nil => exact absurd hp (List.not_mem_nil p)
  | cons b bs ih =>
    rcases List.mem_cons.mp hp with rfl | hp2
    · exact le_trans (le_max_right init (g p)) (foldl_max_init_le g bs (max init (g p)))
    · exact ih _ hp2

theorem foldl_max_of_le {α β : Type} [LinearOrder α] (g : β → α) (l : List β)
    (init : α) (h : ∀ p ∈ l, g p ≤ init) :
    l.foldl (fun a b => max a (g b)) init = init := by
  induction l with
  | nil => rfl
  | cons b bs ih =>
    rw [List.foldl_cons, max_eq_left (h b (List.mem_cons_self b bs))]
    exact ih (fun p hp => h p (List.mem_cons_of_mem b hp))

theorem gaussTotal_pos (sigma : ℝ) (size : ℕ) (h : 0 < size) :
    0 < gaussTotal sigma size := by
  refine Finset.sum_pos (fun y _ => Finset.sum_pos (fun x _ => Real.exp_pos _) ?_) ?_
  · exact Finset.nonempty_range_iff.mpr (Nat.pos_iff_ne_zero.mp h)
  · exact Finset.nonempty_range_iff.mpr (Nat.pos_iff_ne_zero.mp h)

theorem gaussianKernelSigma_sum (sigma : ℝ) (size : ℕ) (h : 0 < size) :
    ∑ ky ∈ Finset.range size, ∑ kx ∈ Finset.range size,
      (GaussianKernelSigma sigma size).val ky kx = 1 := by
  have hT : gaussTotal sigma size ≠ 0 := (gaussTotal_pos sigma size h).ne'
  show (∑ ky ∈ Finset.range size, ∑ kx ∈ Finset.range size,
    gaussWeight sigma size ky kx / gaussTotal sigma size) = 1
  rw [show (∑ ky ∈ Finset.range size, ∑ kx ∈ Finset.range size,
      gaussWeight sigma size ky kx / gaussTotal sigma size) =
      (∑ ky ∈ Finset.range size, ∑ kx ∈ Finset.range size,
        gaussWeight sigma size ky kx) / gaussTotal sigma size by
    rw [Finset.sum_div]
    exact Finset.sum_congr rfl (fun ky _ => (Finset.sum_div _ _ _).symm)]
  exact div_self hT

theorem filter2d_pix {α : Type} [LinearOrderedCommRing α] (src : Image α)
    (kernel : FilterKernel α) (x y : ℤ) :
    (Filter2d src kernel).pix x y =
      ∑ ky ∈ Finset.range kernel.height, ∑ kx ∈ Finset.range kernel.width,
        src.pix (Reflect (x + kx - (kernel.width / 2 : ℕ)) 0 ((src.width : ℤ) - 1))
            (Reflect (y + ky - (kernel.height / 2 : ℕ)) 0 ((src.height : ℤ) - 1)) *
          kernel.val ky kx := rfl

/-- A coordinate at most one window radius out of range reflects into
range, provided the window fits the dimension (`k < kw ≤ dim`). -/
theorem reflect_inRange {dim : ℕ} {x : ℤ} {k kw : ℕ} (h0 : 0 ≤ x) (h1 : x < dim)
    (hk : k < kw) (hkd : kw / 2 < dim) :
    0 ≤ Reflect (x + k - (kw / 2 : ℕ)) 0 ((dim : ℤ) - 1) ∧
      Reflect (x + k - (kw / 2 : ℕ)) 0 ((dim : ℤ) - 1) < dim := by
  have h := @reflect_mem (x + k - (kw / 2 : ℕ)) 0 ((dim : ℤ) - 1) (by omega) (by omega)
  omega

/-- Filtering an image that is constant on its pixel rectangle with a kernel
whose weights sum to 1 reproduces the constant at every in-range pixel,
whenever the image is at least as large as the kernel. -/
theorem filter2d_const {α : Type} [LinearOrderedCommRing α] (src : Image α)
    (kernel : FilterKernel α) (c : α)
    (hww : kernel.width / 2 < src.width) (hhh : kernel.height / 2 < src.height)
    (hsum : ∑ ky ∈ Finset.range kernel.height, ∑ kx ∈ Finset.range kernel.width,
      kernel.val ky kx = 1)
    (hc : ∀ a b : ℤ, src.inRange a b → src.pix a b = c)
    (x y : ℤ) (hxy : src.inRange x y) : (Filter2d src kernel).pix x y = c := by
  obtain ⟨hx0, hx1, hy0, hy1⟩ := hxy
  rw [filter2d_pix]
  have step : ∀ ky ∈ Finset.range kernel.height, ∀ kx ∈ Finset.range kernel.width,
      src.pix (Reflect (x + kx - (kernel.width / 2 : ℕ)) 0 ((src.width : ℤ) - 1))
          (Reflect (y + ky - (kernel.height / 2 : ℕ)) 0 ((src.height : ℤ) - 1)) *
        kernel.val ky kx = c * kernel.val ky kx := by
    intro ky hky kx hkx
    have hxm := reflect_inRange hx0 hx1 (Finset.mem_range.mp hkx) hww
    have hym := reflect_inRange hy0 hy1 (Finset.mem_range.mp hky) hhh
    rw [hc _ _ ⟨hxm.1, hxm.2, hym.1, hym.2⟩]
  rw [Finset.sum_congr rfl (fun ky hky => Finset.sum_congr rfl (step ky hky))]
  rw [show (∑ ky ∈ Finset.range kernel.height, ∑ kx ∈ Finset.range kernel.width,
      c * kernel.val ky kx) =
      c * ∑ ky ∈ Finset.range kernel.height, ∑ kx ∈ Finset.range kernel.width,
        kernel.val ky kx by
    rw [Finset.mul_sum]
    exact Finset.sum_congr rfl (fun ky _ => (Finset.mul_sum _ _ _).symm)]
  rw [hsum, mul_one]

/-- Filtering an image that vanishes on its pixel rectangle gives zero at
every in-range pixel (no normalization hypothesis needed), whenever the
image is at least as large as the kernel. -/
theorem filter2d_zero {α : Type} [LinearOrderedCommRing α] (src : Image α)
    (kernel : FilterKernel α)
    (hww : kernel.width / 2 < src.width) (hhh : kernel.height / 2 < src.height)
    (hc : ∀ a b : ℤ, src.inRange a b → src.pix a b = 0)
    (x y : ℤ) (hxy : src.inRange x y) : (Filter2d src kernel).pix x y = 0 := by
  obtain ⟨hx0, hx1, hy0, hy1⟩ := hxy
  rw [filter2d_pix]
  refine Finset.sum_eq_zero (fun ky hky => Finset.sum_eq_zero (fun kx hkx => ?_))
  have hxm := reflect_inRange hx0 hx1 (Finset.mem_range.mp hkx) hww
  have hym := reflect_inRange hy0 hy1 (Finset.mem_range.mp hky) hhh
  rw [hc _ _ ⟨hxm.1, hxm.2, hym.1, hym.2⟩, zero_mul]

/-- When every accessed coordinate of the window around `(x, y)` is already
in range, the reflections in `Filter2d` are the identity. -/
theorem filter2d_pix_interior {α : Type} [LinearOrderedCommRing α] (src : Image α)
    (kernel : FilterKernel α) (x y : ℤ)
    (hx : ∀ kx : ℕ, kx < kernel.width →
      0 ≤ x + kx - (kernel.width / 2 : ℕ) ∧
        x + kx - (kernel.width / 2 : ℕ) ≤ (src.width : ℤ) - 1)
    (hy : ∀ ky : ℕ, ky < kernel.height →
      0 ≤ y + ky - (kernel.height / 2 : ℕ) ∧
        y + ky - (kernel.height / 2 : ℕ) ≤ (src.height : ℤ) - 1) :
    (Filter2d src kernel).pix x y =
      ∑ ky ∈ Finset.range kernel.height, ∑ kx ∈ Finset.range kernel.width,
        src.pix (x + kx - (kernel.width / 2 : ℕ)) (y + ky - (kernel.height / 2 : ℕ)) *
          kernel.val ky kx := by
  rw [filter2d_pix]
  refine Finset.sum_congr rfl (fun ky hky => Finset.sum_congr rfl (fun kx hkx => ?_))
  rw [reflect_of_mem (hx kx (Finset.mem_range.mp hkx)).1 (hx kx (Finset.mem_range.mp hkx)).2,
    reflect_of_mem (hy ky (Finset.mem_range.mp hky)).1 (hy ky (Finset.mem_range.mp hky)).2]

@[simp] theorem Filter2d_width {α : Type} [LinearOrderedCommRing α] (src : Image α)
    (kernel : FilterKernel α) : (Filter2d src kernel).width = src.width := rfl

@[simp] theorem Filter2d_height {α : Type} [LinearOrderedCommRing α] (src : Image α)
    (kernel : FilterKernel α) : (Filter2d src kernel).height = src.height := rfl

@[simp] theorem Map_width {α β : Type} (src : Image α) (f : α → β) :
    (Map src f).width = src.width := rfl

@[simp] theorem Map_height {α β : Type} (src : Image α) (f : α → β) :
    (Map src f).height = src.height := rfl

@[simp] theorem Map_pix {α β : Type} (src : Image α) (f : α → β) (x y : ℤ) :
    (Map src f).pix x y = f (src.pix x y) := rfl

@[simp] theorem NonMaxSuppression_width {α : Type} [LinearOrderedCommRing α]
    (src : Image α) (window_size : ℕ) (threshold : α) :
    (NonMaxSuppression src window_size threshold).width = src.width := rfl

@[simp] theorem NonMaxSuppression_height {α : Type} [LinearOrderedCommRing α]
    (src : Image α) (window_size : ℕ) (threshold : α) :
    (NonMaxSuppression src window_size threshold).height = src.height := rfl

@[simp] theorem StructureTensorImage_width (src : Image ℝ)
    (smoothing_size structure_size : ℕ) :
    (StructureTensorImage src smoothing_size structure_size).width = src.width := rfl

@[simp] theorem StructureTensorImage_height (src : Image ℝ)
    (smoothing_size structure_size : ℕ) :
    (StructureTensorImage src smoothing_size structure_size).height = src.height := rfl

@[simp] theorem HarrisResponseImage_width (src : Image ℝ)
    (smoothing_size structure_size : ℕ) (harris_k : ℝ) :
    (HarrisResponseImage src smoothing_size structure_size harris_k).width =
      src.width := rfl

@[simp] theorem HarrisResponseImage_height (src : Image ℝ)
    (smoothing_size structure_size : ℕ) (harris_k : ℝ) :
    (HarrisResponseImage src smoothing_size structure_size harris_k).height =
      src.height := rfl

@[simp] theorem HarrisCorners_width (src : Image ℝ) (smoothing_size structure_size : ℕ)
    (harris_k thresholdRat : ℝ) (suppression_size : ℕ) :
    (HarrisCorners src smoothing_size structure_size harris_k thresholdRat
      suppression_size).width = src.width := rfl

@[simp] theorem HarrisCorners_height (src : Image ℝ) (smoothing_size structure_size : ℕ)
    (harris_k thresholdRat : ℝ) (suppression_size : ℕ) :
    (HarrisCorners src smoothing_size structure_size harris_k thresholdRat
      suppression_size).height = src.height := rfl

theorem smoothedImage_zero (src : Image ℝ) (smoothing_size : ℕ)
    (hw : smoothing_size / 2 < src.width) (hh : smoothing_size / 2 < src.height)
    (hz : ∀ a b : ℤ, src.inRange a b → src.pix a b = 0) :
    ∀ a b : ℤ, src.inRange a b → (SmoothedImage src smoothing_size).pix a b = 0 :=
  fun a b hab => filter2d_zero src (GaussianKernelSigma 1 smoothing_size) hw hh hz a b hab

theorem ixImage_zero (src : Image ℝ) (smoothing_size : ℕ)
    (hw : smoothing_size / 2 < src.width) (hh : smoothing_size / 2 < src.height)
    (hw2 : 1 < src.width)
    (hz : ∀ a b : ℤ, src.inRange a b → src.pix a b = 0) :
    ∀ a b : ℤ, src.inRange a b → (IxImage src smoothing_size).pix a b = 0 := by
  intro a b hab
  refine filter2d_zero _ sobelXKernel ?_ ?_ ?_ a b hab
  · exact hw2
  · show 0 < src.height
    omega
  · exact smoothedImage_zero src smoothing_size hw hh hz

theorem iyImage_zero (src : Image ℝ) (smoothing_size : ℕ)
    (hw : smoothing_size / 2 < src.width) (hh : smoothing_size / 2 < src.height)
    (hh2 : 1 < src.height)
    (hz : ∀ a b : ℤ, src.inRange a b → src.pix a b = 0) :
    ∀ a b : ℤ, src.inRange a b → (IyImage src smoothing_size).pix a b = 0 := by
  intro a b hab
  refine filter2d_zero _ sobelYKernel ?_ ?_ ?_ a b hab
  · show 0 < src.width
    omega
  · exact hh2
  · exact smoothedImage_zero src smoothing_size hw hh hz

/-- A `windowRead` of an image that vanishes in range is zero whenever the
window coordinate is at most one half-window out of range. -/
theorem windowRead_zero (img : Image ℝ) (hz : ∀ a b : ℤ, img.inRange a b → img.pix a b = 0)
    {x y : ℤ} {i j half : ℕ} (hx0 : 0 ≤ x) (hx1 : x < img.width) (hy0 : 0 ≤ y)
    (hy1 : y < img.height) (hi : i < 2 * half + 1) (hj : j < 2 * half + 1)
    (hwd : half < img.width) (hhd : half < img.height) :
    windowRead img (x - half + i) (y - half + j) = 0 := by
  unfold windowRead
  apply hz
  have hxm := @reflect_inRange img.width _ i (2 * half + 1) hx0 hx1 hi (by omega)
  have hym := @reflect_inRange img.height _ j (2 * half + 1) hy0 hy1 hj (by omega)
  rw [show x - half + i = x + i - ((2 * half + 1) / 2 : ℕ) by
    push_cast [Nat.mul_add_div, Nat.add_mul_div_left]
    omega] at *
  rw [show y - half + j = y + j - ((2 * half + 1) / 2 : ℕ) by
    push_cast
    omega] at *
  exact ⟨hxm.1, hxm.2, hym.1, hym.2⟩

theorem structureTensorImage_pix (src : Image ℝ) (smoothing_size structure_size : ℕ)
    (x y : ℤ) :
    (StructureTensorImage src smoothing_size structure_size).pix x y =
      StructureTensor.create
        (∑ j ∈ Finset.range (2 * (structure_size / 2) + 1),
          ∑ i ∈ Finset.range (2 * (structure_size / 2) + 1),
            windowRead (IxImage src smoothing_size)
                (x - (structure_size / 2 : ℕ) + i) (y - (structure_size / 2 : ℕ) + j) *
              windowRead (IxImage src smoothing_size)
                (x - (structure_size / 2 : ℕ) + i) (y - (structure_size / 2 : ℕ) + j))
        (∑ j ∈ Finset.range (2 * (structure_size / 2) + 1),
          ∑ i ∈ Finset.range (2 * (structure_size / 2) + 1),
            windowRead (IxImage src smoothing_size)
                (x - (structure_size / 2 : ℕ) + i) (y - (structure_size / 2 : ℕ) + j) *
              windowRead (IyImage src smoothing_size)
                (x - (structure_size / 2 : ℕ) + i) (y - (structure_size / 2 : ℕ) + j))
        (∑ j ∈ Finset.range (2 * (structure_size / 2) + 1),
          ∑ i ∈ Finset.range (2 * (structure_size / 2) + 1),
            windowRead (IyImage src smoothing_size)
                (x - (structure_size / 2 : ℕ) + i) (y - (structure_size / 2 : ℕ) + j) *
              windowRead (IyImage src smoothing_size)
                (x - (structure_size / 2 : ℕ) + i) (y - (structure_size / 2 : ℕ) + j)) :=
  rfl

theorem structureTensorImage_zero (src : Image ℝ) (smoothing_size structure_size : ℕ)
    (hsmw : smoothing_size / 2 < src.width) (hsmh : smoothing_size / 2 < src.height)
    (hstw : structure_size / 2 < src.width) (hsth : structure_size / 2 < src.height)
    (hw2 : 1 < src.width) (hh2 : 1 < src.height)
    (hz : ∀ a b : ℤ, src.inRange a b → src.pix a b = 0)
    (x y : ℤ) (hxy : src.inRange x y) :
    (StructureTensorImage src smoothing_size structure_size).pix x y =
      StructureTensor.create 0 0 0 := by
  obtain ⟨hx0, hx1, hy0, hy1⟩ := hxy
  have hxz : ∀ a b : ℤ, (IxImage src smoothing_size).inRange a b →
      (IxImage src smoothing_size).pix a b = 0 :=
    ixImage_zero src smoothing_size hsmw hsmh hw2 hz
  have hyz : ∀ a b : ℤ, (IyImage src smoothing_size).inRange a b →
      (IyImage src smoothing_size).pix a b = 0 :=
    iyImage_zero src smoothing_size hsmw hsmh hh2 hz
  rw [structureTensorImage_pix]
  have zx : ∀ i j : ℕ, i < 2 * (structure_size / 2) + 1 →
      j < 2 * (structure_size / 2) + 1 →
      windowRead (IxImage src smoothing_size)
        (x - (structure_size / 2 : ℕ) + i) (y - (structure_size / 2 : ℕ) + j) = 0 :=
    fun i j hi hj => windowRead_zero _ hxz hx0 hx1 hy0 hy1 hi hj hstw hsth
  have zy : ∀ i j : ℕ, i < 2 * (structure_size / 2) + 1 →
      j < 2 * (structure_size / 2) + 1 →
      windowRead (IyImage src smoothing_size)
        (x - (structure_size / 2 : ℕ) + i) (y - (structure_size / 2 : ℕ) + j) = 0 :=
    fun i j hi hj => windowRead_zero _ hyz hx0 hx1 hy0 hy1 hi hj hstw hsth
  have e1 : ∀ f g : ℤ → ℤ → ℝ,
      (∀ i j : ℕ, i < 2 * (structure_size / 2) + 1 → j < 2 * (structure_size / 2) + 1 →
        f (x - (structure_size / 2 : ℕ) + i) (y - (structure_size / 2 : ℕ) + j) = 0) →
      (∑ j ∈ Finset.range (2 * (structure_size / 2) + 1),
        ∑ i ∈ Finset.range (2 * (structure_size / 2) + 1),
          f (x - (structure_size / 2 : ℕ) + i) (y - (structure_size / 2 : ℕ) + j) *
            g (x - (structure_size / 2 : ℕ) + i) (y - (structure_size / 2 : ℕ) + j)) = 0 := by
    intro f g hf
    refine Finset.sum_eq_zero (fun j hj => Finset.sum_eq_zero (fun i hi => ?_))
    rw [hf i j (Finset.mem_range.mp hi) (Finset.mem_range.mp hj), zero_mul]
  rw [e1 _ _ zx, e1 _ _ zx]
  congr 1
  refine Finset.sum_eq_zero (fun j hj => Finset.sum_eq_zero (fun i hi => ?_))
  rw [zy i j (Finset.mem_range.mp hi) (Finset.mem_range.mp hj), zero_mul]

theorem harrisResponse_of_zero (harris_k : ℝ) :
    HarrisResponse harris_k (StructureTensor.create 0 0 0) = 0 := by
  simp [HarrisResponse, StructureTensor.create]

theorem harrisResponseImage_zero (src : Image ℝ) (smoothing_size structure_size : ℕ)
    (harris_k : ℝ)
    (hsmw : smoothing_size / 2 < src.width) (hsmh : smoothing_size / 2 < src.height)
    (hstw : structure_size / 2 < src.width) (hsth : structure_size / 2 < src.height)
    (hw2 : 1 < src.width) (hh2 : 1 < src.height)
    (hz : ∀ a b : ℤ, src.inRange a b → src.pix a b = 0)
    (x y : ℤ) (hxy : src.inRange x y) :
    (HarrisResponseImage src smoothing_size structure_size harris_k).pix x y = 0 := by
  show HarrisResponse harris_k
    ((StructureTensorImage src smoothing_size structure_size).pix x y) = 0
  rw [structureTensorImage_zero src smoothing_size structure_size hsmw hsmh hstw hsth
    hw2 hh2 hz x y hxy]
  exact harrisResponse_of_zero harris_k

theorem harrisMaxResponse_zero (src : Image ℝ) (smoothing_size structure_size : ℕ)
    (harris_k : ℝ)
    (hsmw : smoothing_size / 2 < src.width) (hsmh : smoothing_size / 2 < src.height)
    (hstw : structure_size / 2 < src.width) (hsth : structure_size / 2 < src.height)
    (hw2 : 1 < src.width) (hh2 : 1 < src.height)
    (hz : ∀ a b : ℤ, src.inRange a b → src.pix a b = 0) :
    HarrisMaxResponse src smoothing_size structure_size harris_k = 0 := by
  refine foldl_max_of_le
    (fun p : ℤ × ℤ =>
      (HarrisResponseImage src smoothing_size structure_size harris_k).pix p.1 p.2)
    (coords src.width src.height) 0 ?_
  intro p hp
  show (HarrisResponseImage src smoothing_size structure_size harris_k).pix p.1 p.2 ≤ 0
  rw [harrisResponseImage_zero src smoothing_size structure_size harris_k hsmw hsmh
    hstw hsth hw2 hh2 hz p.1 p.2 (mem_coords.mp hp)]

theorem oSum_map_some (l : List ℝ) : OSum (l.map some) = some l.sum := by
  have aux : ∀ (l : List ℝ) (a : ℝ), (l.map some).foldl OAdd (some a) = some (a + l.sum) := by
    intro l
    induction l with
    | nil => intro a; simp
    | cons v vs ih =>
      intro a
      simp only [List.map_cons, List.foldl_cons, OAdd, List.sum_cons, ih (a + v)]
      ring_nf
  simpa using aux l 0

theorem gaussSizeSigma_ne_zero {size : ℕ} (h : 3 ≤ size) : gaussSizeSigma size ≠ 0 := by
  unfold gaussSizeSigma
  have h1 : (3 : ℝ) ≤ (size : ℝ) := by exact_mod_cast h
  have h2 : (0 : ℝ) < ((size : ℝ) - 1) / 4 := by linarith
  exact h2.ne'

theorem oDiv_some (a b : ℝ) : ODiv (some a) (some b) = if b = 0 then none else some (a / b) := rfl

theorem two_sigma_sq_ne_zero {size : ℕ} (h : 3 ≤ size) :
    2 * gaussSizeSigma size * gaussSizeSigma size ≠ 0 :=
  mul_ne_zero (mul_ne_zero two_ne_zero (gaussSizeSigma_ne_zero h))
    (gaussSizeSigma_ne_zero h)

theorem gaussRawList_eq_map_some {size : ℕ} (h : 3 ≤ size) :
    gaussRawList size = (gaussRealList size).map some := by
  unfold gaussRawList gaussRealList
  rw [List.map_flatMap]
  congr 1
  funext y
  rw [List.map_map]
  congr 1
  funext x
  show gaussRawValue size y x = some _
  unfold gaussRawValue
  rw [oDiv_some, if_neg (two_sigma_sq_ne_zero h)]
  rfl

theorem gaussRealList_length (size : ℕ) : (gaussRealList size).length = size * size := by
  unfold gaussRealList
  simp [List.length_flatMap, Function.comp_def, List.length_map, List.length_range,
    List.map_const', List.sum_replicate, smul_eq_mul]

theorem gaussRealList_pos (size : ℕ) : ∀ v ∈ gaussRealList size, 0 < v := by
  intro v hv
  unfold gaussRealList at hv
  simp only [List.mem_flatMap, List.mem_map, List.mem_range] at hv
  obtain ⟨y, -, x, -, rfl⟩ := hv
  exact Real.exp_pos _

theorem list_sum_div (l : List ℝ) (S : ℝ) :
    (l.map (fun v => v / S)).sum = l.sum / S := by
  induction l with
  | nil => simp
  | cons v vs ih => simp only [List.map_cons, List.sum_cons, ih, add_div]

@[simp] theorem GaussianKernelSigma_width (sigma : ℝ) (size : ℕ) :
    (GaussianKernelSigma sigma size).width = size := rfl

@[simp] theorem GaussianKernelSigma_height (sigma : ℝ) (size : ℕ) :
    (GaussianKernelSigma sigma size).height = size := rfl

@[simp] theorem GaussianKernelSigma_val (sigma : ℝ) (size : ℕ) (ky kx : ℕ) :
    (GaussianKernelSigma sigma size).val ky kx =
      gaussWeight sigma size ky kx / gaussTotal sigma size := rfl

@[simp] theorem ramp11_pix (a b : ℤ) : ramp11.pix a b = (b : ℝ) := rfl

@[simp] theorem ramp11_width : ramp11.width = 11 := rfl

@[simp] theorem ramp11_height : ramp11.height = 11 := rfl

theorem gaussWeight_symm5 (ky kx : ℕ) (hky : ky ≤ 4) :
    gaussWeight 1 5 (4 - ky) kx = gaussWeight 1 5 ky kx := by
  unfold gaussWeight
  refine congrArg Real.exp ?_
  have hc : ((4 - ky : ℕ) : ℤ) = 4 - (ky : ℤ) := by omega
  rw [hc]
  have h52 : ((5 / 2 : ℕ) : ℤ) = 2 := rfl
  rw [h52]
  push_cast
  ring

/-- The rows of the normalized size-5 Gaussian kernel are symmetric about
the center row. -/
theorem gauss5_row_symm (ky : ℕ) (hky : ky ≤ 4) :
    (∑ kx ∈ Finset.range 5, gaussWeight 1 5 (4 - ky) kx / gaussTotal 1 5) =
      ∑ kx ∈ Finset.range 5, gaussWeight 1 5 ky kx / gaussTotal 1 5 := by
  refine Finset.sum_congr rfl (fun kx _ => ?_)
  rw [gaussWeight_symm5 ky kx hky]

/-- The first moment of the normalized size-5 Gaussian kernel rows
vanishes. -/
theorem gauss5_row_moment :
    (∑ ky ∈ Finset.range 5, (((ky : ℕ) : ℝ) - 2) *
      (∑ kx ∈ Finset.range 5, gaussWeight 1 5 ky kx / gaussTotal 1 5)) = 0 := by
  have hrefl := Finset.sum_range_reflect
    (fun ky => (((ky : ℕ) : ℝ) - 2) *
      (∑ kx ∈ Finset.range 5, gaussWeight 1 5 ky kx / gaussTotal 1 5)) 5
  have hneg : (∑ ky ∈ Finset.range 5, (((5 - 1 - ky : ℕ) : ℝ) - 2) *
      (∑ kx ∈ Finset.range 5, gaussWeight 1 5 (5 - 1 - ky) kx / gaussTotal 1 5)) =
      -(∑ ky ∈ Finset.range 5, (((ky : ℕ) : ℝ) - 2) *
        (∑ kx ∈ Finset.range 5, gaussWeight 1 5 ky kx / gaussTotal 1 5)) := by
    rw [← Finset.sum_neg_distrib]
    refine Finset.sum_congr rfl (fun ky hky => ?_)
    have hky4 : ky ≤ 4 := by
      have := Finset.mem_range.mp hky
      omega
    have h1 : (5 : ℕ) - 1 - ky = 4 - ky := by omega
    rw [h1, gauss5_row_symm ky hky4]
    have hc : (((4 - ky : ℕ) : ℝ)) = 4 - (ky : ℝ) := by
      have : ((4 - ky : ℕ) : ℤ) = 4 - (ky : ℤ) := by omega
      exact_mod_cast this
    rw [hc]
    ring
  rw [hneg] at hrefl
  linarith

/-- Gaussian smoothing of the vertical ramp reproduces the ramp away from
the top and bottom edges (the kernel rows sum to 1 and their first moment
vanishes). -/
theorem smoothed_ramp11 (x y : ℤ) (hy1 : 2 ≤ y) (hy2 : y ≤ 8) :
    (SmoothedImage ramp11 5).pix x y = (y : ℝ) := by
  show (Filter2d ramp11 (GaussianKernelSigma 1 5)).pix x y = (y : ℝ)
  rw [filter2d_pix]
  simp only [GaussianKernelSigma_width, GaussianKernelSigma_height, GaussianKernelSigma_val,
    ramp11_pix, ramp11_width, ramp11_height]
  have hstep : ∀ ky ∈ Finset.range 5, ∀ kx ∈ Finset.range 5,
      ((Reflect (y + (ky : ℤ) - ((5 / 2 : ℕ) : ℤ)) 0 (((11 : ℕ) : ℤ) - 1) : ℤ) : ℝ) *
        (gaussWeight 1 5 ky kx / gaussTotal 1 5) =
      (((y : ℝ) + (((ky : ℕ) : ℝ) - 2))) * (gaussWeight 1 5 ky kx / gaussTotal 1 5) := by
    intro ky hky kx _
    have hky5 := Finset.mem_range.mp hky
    have h52 : ((5 / 2 : ℕ) : ℤ) = 2 := rfl
    rw [reflect_of_mem (by rw [h52]; omega) (by rw [h52]; push_cast; omega)]
    congr 1
    rw [h52]
    push_cast
    ring
  refine Eq.trans (Finset.sum_congr rfl
    (fun ky hky => Finset.sum_congr rfl (hstep ky hky))) ?_
  have hout : (∑ ky ∈ Finset.range 5, ∑ kx ∈ Finset.range 5,
      (((y : ℝ) + (((ky : ℕ) : ℝ) - 2))) * (gaussWeight 1 5 ky kx / gaussTotal 1 5)) =
      (y : ℝ) * (∑ ky ∈ Finset.range 5, ∑ kx ∈ Finset.range 5,
        gaussWeight 1 5 ky kx / gaussTotal 1 5) +
      (∑ ky ∈ Finset.range 5, (((ky : ℕ) : ℝ) - 2) *
        (∑ kx ∈ Finset.range 5, gaussWeight 1 5 ky kx / gaussTotal 1 5)) := by
    rw [Finset.mul_sum, ← Finset.sum_add_distrib]
    refine Finset.sum_congr rfl (fun ky _ => ?_)
    rw [Finset.mul_sum, Finset.mul_sum, ← Finset.sum_add_distrib]
    refine Finset.sum_congr rfl (fun kx _ => ?_)
    ring
  rw [hout, show (∑ ky ∈ Finset.range 5, ∑ kx ∈ Finset.range 5,
      gaussWeight 1 5 ky kx / gaussTotal 1 5) = 1 from gaussianKernelSigma_sum 1 5 (by norm_num),
    gauss5_row_moment, mul_one, add_zero]

@[simp] theorem sobelXKernel_width {α : Type} [LinearOrderedCommRing α] :
    (sobelXKernel : FilterKernel α).width = 3 := rfl

@[simp] theorem sobelXKernel_height {α : Type} [LinearOrderedCommRing α] :
    (sobelXKernel : FilterKernel α).height = 1 := rfl

@[simp] theorem sobelXKernel_val {α : Type} [LinearOrderedCommRing α] (ky kx : ℕ) :
    (sobelXKernel : FilterKernel α).val ky kx = sobelWeight kx := rfl

@[simp] theorem sobelYKernel_width {α : Type} [LinearOrderedCommRing α] :
    (sobelYKernel : FilterKernel α).width = 1 := rfl

@[simp] theorem sobelYKernel_height {α : Type} [LinearOrderedCommRing α] :
    (sobelYKernel : FilterKernel α).height = 3 := rfl

@[simp] theorem sobelYKernel_val {α : Type} [LinearOrderedCommRing α] (ky kx : ℕ) :
    (sobelYKernel : FilterKernel α).val ky kx = sobelWeight ky := rfl

@[simp] theorem SmoothedImage_width (src : Image ℝ) (smoothing_size : ℕ) :
    (SmoothedImage src smoothing_size).width = src.width := rfl

@[simp] theorem SmoothedImage_height (src : Image ℝ) (smoothing_size : ℕ) :
    (SmoothedImage src smoothing_size).height = src.height := rfl

@[simp] theorem IxImage_width (src : Image ℝ) (smoothing_size : ℕ) :
    (IxImage src smoothing_size).width = src.width := rfl

@[simp] theorem IxImage_height (src : Image ℝ) (smoothing_size : ℕ) :
    (IxImage src smoothing_size).height = src.height := rfl

@[simp] theorem IyImage_width (src : Image ℝ) (smoothing_size : ℕ) :
    (IyImage src smoothing_size).width = src.width := rfl

@[simp] theorem IyImage_height (src : Image ℝ) (smoothing_size : ℕ) :
    (IyImage src smoothing_size).height = src.height := rfl

/-- On the interior of the ramp, the horizontal derivative vanishes. -/
theorem ix_ramp11 (x y : ℤ) (hx1 : 1 ≤ x) (hx2 : x ≤ 9) (hy1 : 2 ≤ y) (hy2 : y ≤ 8) :
    (IxImage ramp11 5).pix x y = 0 := by
  show (Filter2d (SmoothedImage ramp11 5) sobelXKernel).pix x y = 0
  rw [filter2d_pix]
  simp only [sobelXKernel_width, sobelXKernel_height, sobelXKernel_val,
    SmoothedImage_width, SmoothedImage_height, ramp11_width, ramp11_height]
  rw [Finset.sum_range_one, Finset.sum_range_succ, Finset.sum_range_succ,
    Finset.sum_range_one]
  norm_num [sobelWeight]
  rw [show x + 2 - 1 = x + 1 by ring]
  rw [reflect_of_mem (by omega : (0 : ℤ) ≤ x - 1) (by omega : x - 1 ≤ (10 : ℤ)),
    reflect_of_mem (by omega : (0 : ℤ) ≤ x + 1) (by omega : x + 1 ≤ (10 : ℤ)),
    reflect_of_mem (by omega : (0 : ℤ) ≤ y) (by omega : y ≤ (10 : ℤ))]
  rw [smoothed_ramp11 (x - 1) y hy1 hy2, smoothed_ramp11 (x + 1) y hy1 hy2]
  ring

/-- On the interior of the ramp, the vertical derivative is `-2`. -/
theorem iy_ramp11 (x y : ℤ) (hx1 : 0 ≤ x) (hx2 : x ≤ 10) (hy1 : 3 ≤ y) (hy2 : y ≤ 7) :
    (IyImage ramp11 5).pix x y = -2 := by
  show (Filter2d (SmoothedImage ramp11 5) sobelYKernel).pix x y = -2
  rw [filter2d_pix]
  simp only [sobelYKernel_width, sobelYKernel_height, sobelYKernel_val,
    SmoothedImage_width, SmoothedImage_height, ramp11_width, ramp11_height]
  rw [Finset.sum_range_succ, Finset.sum_range_succ, Finset.sum_range_one]
  norm_num [sobelWeight, Finset.sum_range_one]
  rw [show y + 2 - 1 = y + 1 by ring]
  rw [reflect_of_mem (by omega : (0 : ℤ) ≤ y - 1) (by omega : y - 1 ≤ (10 : ℤ)),
    reflect_of_mem (by omega : (0 : ℤ) ≤ y + 1) (by omega : y + 1 ≤ (10 : ℤ)),
    reflect_of_mem (by omega : (0 : ℤ) ≤ x) (by omega : x ≤ (10 : ℤ))]
  rw [smoothed_ramp11 x (y - 1) (by omega) (by omega),
    smoothed_ramp11 x (y + 1) (by omega) (by omega)]
  push_cast
  ring

theorem windowRead_ix_ramp11 (i j : ℕ) (hi : i < 5) (hj : j < 5) :
    windowRead (IxImage ramp11 5) ((5 : ℤ) - ((5 / 2 : ℕ) : ℤ) + (i : ℤ))
      ((5 : ℤ) - ((5 / 2 : ℕ) : ℤ) + (j : ℤ)) = 0 := by
  unfold windowRead
  simp only [IxImage_width, IxImage_height, ramp11_width, ramp11_height]
  have h52 : ((5 / 2 : ℕ) : ℤ) = 2 := rfl
  rw [h52]
  rw [reflect_of_mem (by omega) (by push_cast; omega),
    reflect_of_mem (by omega) (by push_cast; omega)]
  exact ix_ramp11 _ _ (by omega) (by omega) (by omega) (by omega)

theorem windowRead_iy_ramp11 (i j : ℕ) (hi : i < 5) (hj : j < 5) :
    windowRead (IyImage ramp11 5) ((5 : ℤ) - ((5 / 2 : ℕ) : ℤ) + (i : ℤ))
      ((5 : ℤ) - ((5 / 2 : ℕ) : ℤ) + (j : ℤ)) = -2 := by
  unfold windowRead
  simp only [IyImage_width, IyImage_height, ramp11_width, ramp11_height]
  have h52 : ((5 / 2 : ℕ) : ℤ) = 2 := rfl
  rw [h52]
  rw [reflect_of_mem (by omega) (by push_cast; omega),
    reflect_of_mem (by omega) (by push_cast; omega)]
  exact iy_ramp11 _ _ (by omega) (by omega) (by omega) (by omega)

/-- The structure tensor the code writes at the center of the ramp: the
window sums are `Σ Ix·Ix = 0`, `Σ Ix·Iy = 0`, `Σ Iy·Iy = 100`, and they are
passed to the constructor positionally as `(s_xx, s_xy, s_yy)`. -/
theorem structureTensorImage_ramp11 :
    (StructureTensorImage ramp11 5 5).pix 5 5 = StructureTensor.create 0 0 100 := by
  rw [structureTensorImage_pix]
  have e1 : (∑ j ∈ Finset.range (2 * (5 / 2) + 1), ∑ i ∈ Finset.range (2 * (5 / 2) + 1),
      windowRead (IxImage ramp11 5)
          ((5 : ℤ) - ((5 / 2 : ℕ) : ℤ) + (i : ℤ)) ((5 : ℤ) - ((5 / 2 : ℕ) : ℤ) + (j : ℤ)) *
        windowRead (IxImage ramp11 5)
          ((5 : ℤ) - ((5 / 2 : ℕ) : ℤ) + (i : ℤ)) ((5 : ℤ) - ((5 / 2 : ℕ) : ℤ) + (j : ℤ))) = 0 := by
    refine Finset.sum_eq_zero (fun j hj => Finset.sum_eq_zero (fun i hi => ?_))
    rw [windowRead_ix_ramp11 i j (Finset.mem_range.mp hi) (Finset.mem_range.mp hj), zero_mul]
  have e2 : (∑ j ∈ Finset.range (2 * (5 / 2) + 1), ∑ i ∈ Finset.range (2 * (5 / 2) + 1),
      windowRead (IxImage ramp11 5)
          ((5 : ℤ) - ((5 / 2 : ℕ) : ℤ) + (i : ℤ)) ((5 : ℤ) - ((5 / 2 : ℕ) : ℤ) + (j : ℤ)) *
        windowRead (IyImage ramp11 5)
          ((5 : ℤ) - ((5 / 2 : ℕ) : ℤ) + (i : ℤ)) ((5 : ℤ) - ((5 / 2 : ℕ) : ℤ) + (j : ℤ))) = 0 := by
    refine Finset.sum_eq_zero (fun j hj => Finset.sum_eq_zero (fun i hi => ?_))
    rw [windowRead_ix_ramp11 i j (Finset.mem_range.mp hi) (Finset.mem_range.mp hj), zero_mul]
  have e3 : (∑ j ∈ Finset.range (2 * (5 / 2) + 1), ∑ i ∈ Finset.range (2 * (5 / 2) + 1),
      windowRead (IyImage ramp11 5)
          ((5 : ℤ) - ((5 / 2 : ℕ) : ℤ) + (i : ℤ)) ((5 : ℤ) - ((5 / 2 : ℕ) : ℤ) + (j : ℤ)) *
        windowRead (IyImage ramp11 5)
          ((5 : ℤ) - ((5 / 2 : ℕ) : ℤ) + (i : ℤ)) ((5 : ℤ) - ((5 / 2 : ℕ) : ℤ) + (j : ℤ))) = 100 := by
    rw [Finset.sum_congr rfl (fun j hj => Finset.sum_congr rfl (fun i hi => by
      rw [windowRead_iy_ramp11 i j (Finset.mem_range.mp hi) (Finset.mem_range.mp hj)]))]
    norm_num [Finset.sum_const, Finset.card_range]
  rw [e1, e2, e3]

/-- The structure tensor the specification expects at the center of the
ramp: `yy` holds `Σ Iy·Iy = 100` and `xy` holds `Σ Ix·Iy = 0`. -/
theorem claimedStructureTensorImage_ramp11 :
    (ClaimedStructureTensorImage ramp11 5 5).pix 5 5 =
      { xx := 0, yy := 100, xy := 0 } := by
  show ({ xx := _, yy := _, xy := _ } : StructureTensor ℝ) = _
  have e1 : (∑ j ∈ Finset.range (2 * (5 / 2) + 1), ∑ i ∈ Finset.range (2 * (5 / 2) + 1),
      windowRead (IxImage ramp11 5)
          ((5 : ℤ) - ((5 / 2 : ℕ) : ℤ) + (i : ℤ)) ((5 : ℤ) - ((5 / 2 : ℕ) : ℤ) + (j : ℤ)) *
        windowRead (IxImage ramp11 5)
          ((5 : ℤ) - ((5 / 2 : ℕ) : ℤ) + (i : ℤ)) ((5 : ℤ) - ((5 / 2 : ℕ) : ℤ) + (j : ℤ))) = 0 := by
    refine Finset.sum_eq_zero (fun j hj => Finset.sum_eq_zero (fun i hi => ?_))
    rw [windowRead_ix_ramp11 i j (Finset.mem_range.mp hi) (Finset.mem_range.mp hj), zero_mul]
  have e2 : (∑ j ∈ Finset.range (2 * (5 / 2) + 1), ∑ i ∈ Finset.range (2 * (5 / 2) + 1),
      windowRead (IxImage ramp11 5)
          ((5 : ℤ) - ((5 / 2 : ℕ) : ℤ) + (i : ℤ)) ((5 : ℤ) - ((5 / 2 : ℕ) : ℤ) + (j : ℤ)) *
        windowRead (IyImage ramp11 5)
          ((5 : ℤ) - ((5 / 2 : ℕ) : ℤ) + (i : ℤ)) ((5 : ℤ) - ((5 / 2 : ℕ) : ℤ) + (j : ℤ))) = 0 := by
    refine Finset.sum_eq_zero (fun j hj => Finset.sum_eq_zero (fun i hi => ?_))
    rw [windowRead_ix_ramp11 i j (Finset.mem_range.mp hi) (Finset.mem_range.mp hj), zero_mul]
  have e3 : (∑ j ∈ Finset.range (2 * (5 / 2) + 1), ∑ i ∈ Finset.range (2 * (5 / 2) + 1),
      windowRead (IyImage ramp11 5)
          ((5 : ℤ) - ((5 / 2 : ℕ) : ℤ) + (i : ℤ)) ((5 : ℤ) - ((5 / 2 : ℕ) : ℤ) + (j : ℤ)) *
        windowRead (IyImage ramp11 5)
          ((5 : ℤ) - ((5 / 2 : ℕ) : ℤ) + (i : ℤ)) ((5 : ℤ) - ((5 / 2 : ℕ) : ℤ) + (j : ℤ))) = 100 := by
    rw [Finset.sum_congr rfl (fun j hj => Finset.sum_congr rfl (fun i hi => by
      rw [windowRead_iy_ramp11 i j (Finset.mem_range.mp hi) (Finset.mem_range.mp hj)]))]
    norm_num [Finset.sum_const, Finset.card_range]
  rw [e1, e2, e3]

theorem filter2dReflectOk_true (w h kw kh : ℕ) (hw : kw / 2 < w) (hh : kh / 2 < h) :
    Filter2dReflectOk w h kw kh = true := by
  unfold Filter2dReflectOk
  rw [Bool.and_eq_true]
  constructor
  · rw [List.all_eq_true]
    intro y hy
    rw [List.all_eq_true]
    intro ky hky
    have h1 := List.mem_range.mp hy
    have h2 := List.mem_range.mp hky
    exact reflectOk_of_near (by omega) (by omega)
  · rw [List.all_eq_true]
    intro x hx
    rw [List.all_eq_true]
    intro kx hkx
    have h1 := List.mem_range.mp hx
    have h2 := List.mem_range.mp hkx
    exact reflectOk_of_near (by omega) (by omega)

theorem mapWindowedReflectOk_true (w h windowSize : ℕ) (hw : windowSize / 2 < w)
    (hh : windowSize / 2 < h) : MapWindowedReflectOk w h windowSize = true := by
  unfold MapWindowedReflectOk
  rw [Bool.and_eq_true]
  constructor
  · rw [List.all_eq_true]
    intro y hy
    rw [List.all_eq_true]
    intro wy hwy
    have h1 := List.mem_range.mp hy
    have h2 := mem_intRange.mp hwy
    exact reflectOk_of_near (by omega) (by omega)
  · rw [List.all_eq_true]
    intro x hx
    rw [List.all_eq_true]
    intro wx hwx
    have h1 := List.mem_range.mp hx
    have h2 := mem_intRange.mp hwx
    exact reflectOk_of_near (by omega) (by omega)

/-- Claim C1: the claim states that `StructureTensorImage` writes `xx = Σ
Ix·Ix`, `yy = Σ Iy·Iy` and `xy = Σ Ix·Iy`.  The code instead passes the
accumulators positionally as `StructureTensor(s_xx, s_xy, s_yy)` to a
constructor declared `(s_xx, s_yy, s_xy)`, so `yy` receives `Σ Ix·Iy` and
`xy` receives `Σ Iy·Iy`.  On the vertical ramp image at the interior pixel
`(5, 5)` the window sums are `Σ Ix·Ix = 0`, `Σ Ix·Iy = 0`, `Σ Iy·Iy = 100`:
the code stores `yy = 0` and `xy = 100`, while the claimed field assignment
(`ClaimedStructureTensorImage`) has `yy = 100` and `xy = 0`. -/
theorem claim_C1 :
    ((StructureTensorImage ramp11 5 5).pix 5 5).xx = 0 ∧
    ((StructureTensorImage ramp11 5 5).pix 5 5).yy = 0 ∧
    ((StructureTensorImage ramp11 5 5).pix 5 5).xy = 100 ∧
    ((ClaimedStructureTensorImage ramp11 5 5).pix 5 5).yy = 100 ∧
    ((ClaimedStructureTensorImage ramp11 5 5).pix 5 5).xy = 0 := by
  rw [structureTensorImage_ramp11, claimedStructureTensorImage_ramp11]
  exact ⟨rfl, rfl, rfl, rfl, rfl⟩

/-- Claim C2: `HarrisCpp::NonMaxSuppression` writes the raw `ReduceRange`
accumulator for a surviving pixel, not `1.0`: on a constant response image
of value 7 with threshold 2 every output pixel is 7, which is neither 0 nor
1 (the output does keep the input dimensions). -/
theorem claim_C2 :
    (HarrisCppNonMaxSuppression constImgZ 9 2).pix 2 2 = 7 ∧
    (7 : ℤ) ≠ 0 ∧ (7 : ℤ) ≠ 1 ∧
    (HarrisCppNonMaxSuppression constImgZ 9 2).width = constImgZ.width ∧
    (HarrisCppNonMaxSuppression constImgZ 9 2).height = constImgZ.height := by
  refine ⟨by decide, by decide, by decide, rfl, rfl⟩

/-- Claim C3 (amended): a pixel below the threshold is written as 0 without
its window being inspected; every output pixel is 0 or 1; and a pixel at or
above the threshold is marked 1 exactly when its response is strictly
positive and no pixel in the in-range part of its window is strictly
greater (so equal-valued neighbors never suppress each other, but a
non-positive plateau — e.g. a blank image at threshold 0 — is written as 0,
not 1). -/
theorem claim_C3 {α : Type} [LinearOrderedCommRing α] (src : Image α)
    (window_size : ℕ) (threshold : α) (x y : ℤ) (_hxy : src.inRange x y) :
    (src.pix x y < threshold →
      (NonMaxSuppression src window_size threshold).pix x y = 0) ∧
    ((NonMaxSuppression src window_size threshold).pix x y = 0 ∨
      (NonMaxSuppression src window_size threshold).pix x y = 1) ∧
    (threshold ≤ src.pix x y →
      ((NonMaxSuppression src window_size threshold).pix x y = 1 ↔
        (0 < src.pix x y ∧
          ∀ wx wy : ℤ,
            y - ((window_size / 2 : ℕ) : ℤ) ≤ wy → wy ≤ y + ((window_size / 2 : ℕ) : ℤ) →
            0 ≤ wy → wy < src.height →
            x - ((window_size / 2 : ℕ) : ℤ) ≤ wx → wx ≤ x + ((window_size / 2 : ℕ) : ℤ) →
            0 ≤ wx → wx < src.width →
            src.pix wx wy ≤ src.pix x y))) := by
  refine ⟨nms_pix_of_lt src window_size threshold x y,
    nms_pix_mem src window_size threshold x y, fun hle => ?_⟩
  rw [nms_pix_one_iff]
  constructor
  · rintro ⟨-, hpos, hall⟩
    refine ⟨hpos, fun wx wy h1 h2 h3 h4 h5 h6 h7 h8 => ?_⟩
    exact hall wy (mem_windowCoords.mpr ⟨h1, h2, h3, h4⟩) wx
      (mem_windowCoords.mpr ⟨h5, h6, h7, h8⟩)
  · rintro ⟨hpos, hall⟩
    refine ⟨hle, hpos, fun wy hwy wx hwx => ?_⟩
    obtain ⟨a1, a2, a3, a4⟩ := mem_windowCoords.mp hwy
    obtain ⟨b1, b2, b3, b4⟩ := mem_windowCoords.mp hwx
    exact hall wx wy a1 a2 a3 a4 b1 b2 b3 b4

/-- Witness for C3: on a `1 × 1` image holding 5, with window 3 and
threshold 1, the pixel is marked 1. -/
theorem claim_C3_witness :
    fiveImgZ.inRange 0 0 ∧ (NonMaxSuppression fiveImgZ 3 1).pix 0 0 = 1 :=
  ⟨by decide,
    ((claim_C3 fiveImgZ 3 1 0 0 (by decide)).2.2 (by decide)).mpr
      ⟨by decide, fun wx wy _ _ _ _ _ _ _ _ => le_refl _⟩⟩

/-- Counterexample for C3 as stated: on an all-zero `1 × 1` image with
threshold 0 the single pixel is at the threshold and no window pixel is
strictly greater, so the claim marks it 1 (`NonMaxSuppressionClaimed`), but
the code writes 0. -/
theorem claim_C3_counterexample :
    (NonMaxSuppression zeroImgZ 9 0).pix 0 0 = 0 ∧
    (NonMaxSuppressionClaimed zeroImgZ 9 0).pix 0 0 = 1 := by decide

/-- Claim C4 (amended to odd `size ≥ 3`): for every odd size at least 3 the
`GaussianKernel(int size)` weight list has `size * size` entries and its
weights sum to exactly 1 in the real model (none of them is NaN). -/
theorem claim_C4 (size : ℕ) (h1 : size % 2 = 1) (h3 : 3 ≤ size) :
    OSum (GaussianKernelValues size) = some 1 ∧
      (GaussianKernelValues size).length = size * size := by
  constructor
  · unfold GaussianKernelValues
    rw [gaussRawList_eq_map_some h3, oSum_map_some, List.map_map]
    have hS : 0 < (gaussRealList size).sum := by
      refine List.sum_pos _ (gaussRealList_pos size) ?_
      have hlen := gaussRealList_length size
      intro hnil
      rw [hnil] at hlen
      simp only [List.length_nil] at hlen
      rcases Nat.mul_eq_zero.mp hlen.symm with hz | hz <;> omega
    rw [show ((fun v => ODiv v (some (gaussRealList size).sum)) ∘ some) =
        (fun v : ℝ => some (v / (gaussRealList size).sum)) from
      funext (fun v => by
        rw [Function.comp_apply, oDiv_some, if_neg hS.ne'])]
    rw [show (fun v : ℝ => some (v / (gaussRealList size).sum)) =
        (some ∘ fun v : ℝ => v / (gaussRealList size).sum) from rfl]
    rw [← List.map_map, oSum_map_some, list_sum_div, div_self hS.ne']
  · unfold GaussianKernelValues
    rw [List.length_map, gaussRawList_eq_map_some h3, List.length_map,
      gaussRealList_length]

/-- Witness for C4 at `size = 5`. -/
theorem claim_C4_witness :
    5 % 2 = 1 ∧ 3 ≤ 5 ∧ OSum (GaussianKernelValues 5) = some 1 :=
  ⟨rfl, by norm_num, (claim_C4 5 rfl (by norm_num)).1⟩

/-- Counterexample for C4 as stated: at `size = 1` the derived sigma is 0,
the Gaussian evaluation computes `exp(-0/0) = NaN`, and the NaN propagates
through the sum and the normalization, so the weights do not sum to 1. -/
theorem claim_C4_counterexample :
    OSum (GaussianKernelValues 1) = none ∧ OSum (GaussianKernelValues 1) ≠ some 1 := by
  have hσ : gaussSizeSigma 1 = 0 := by
    unfold gaussSizeSigma
    norm_num
  have hval : gaussRawValue 1 0 0 = none := by
    unfold gaussRawValue
    rw [oDiv_some, if_pos (by rw [hσ]; ring)]
    rfl
  have hraw : gaussRawList 1 = [none] := by
    unfold gaussRawList
    rw [show List.range 1 = [0] from rfl]
    simp only [List.flatMap_cons, List.map_cons, List.map_nil, List.flatMap_nil,
      List.append_nil, hval]
  have hmain : OSum (GaussianKernelValues 1) = none := by
    unfold GaussianKernelValues
    rw [hraw]
    rfl
  exact ⟨hmain, by rw [hmain]; exact fun h => Option.noConfusion h⟩

/-- Claim C5 (amended): the reflections of `Filter2d` and of the windowed
operators all satisfy the no-throw condition exactly when the window radius
is at most the image dimension minus one (`kw/2 < w`, not `kw/2 ≤ w`). -/
theorem claim_C5 (w h kw kh windowSize : ℕ) (h1 : kw / 2 < w) (h2 : kh / 2 < h)
    (h3 : windowSize / 2 < w) (h4 : windowSize / 2 < h) :
    Filter2dReflectOk w h kw kh = true ∧ MapWindowedReflectOk w h windowSize = true :=
  ⟨filter2dReflectOk_true w h kw kh h1 h2,
    mapWindowedReflectOk_true w h windowSize h3 h4⟩

/-- Witness for C5 with a `3 × 3` kernel and window on a `3 × 3` image. -/
theorem claim_C5_witness :
    3 / 2 < 3 ∧ Filter2dReflectOk 3 3 3 3 = true ∧ MapWindowedReflectOk 3 3 3 = true :=
  ⟨by norm_num,
    (claim_C5 3 3 3 3 3 (by norm_num) (by norm_num) (by norm_num) (by norm_num)).1,
    (claim_C5 3 3 3 3 3 (by norm_num) (by norm_num) (by norm_num) (by norm_num)).2⟩

/-- Counterexample for C5 as stated: a `3 × 3` kernel has half-width
`1 ≤ 1 = w` (the claim's premise), yet on a `1 × 1` image one of the
`Filter2d` reflections fails: reflecting coordinate 1 about `max = 0` gives
`-1`, which a single reflection cannot bring back into range. -/
theorem claim_C5_counterexample :
    3 / 2 ≤ 1 ∧ Filter2dReflectOk 1 1 3 3 = false ∧
      ReflectOk 1 0 0 = false ∧ MapWindowedReflectOk 1 1 3 = false := by decide

/-- `HarrisCorners` is non-maximal suppression of the response image at
threshold `max_r * threshold_ratio`. -/
theorem harrisCorners_eq (src : Image ℝ) (smoothing_size structure_size : ℕ)
    (harris_k thresholdRat : ℝ) (suppression_size : ℕ) :
    HarrisCorners src smoothing_size structure_size harris_k thresholdRat
        suppression_size =
      NonMaxSuppression (HarrisResponseImage src smoothing_size structure_size harris_k)
        suppression_size
        (HarrisMaxResponse src smoothing_size structure_size harris_k * thresholdRat) :=
  rfl

theorem length_filter_mono {β : Type} {l : List β} {p q : β → Bool}
    (h : ∀ a ∈ l, p a = true → q a = true) :
    (l.filter p).length ≤ (l.filter q).length := by
  induction l with
  | nil => exact le_refl 0
  | cons a as ih =>
    have ih2 := ih (fun b hb => h b (List.mem_cons_of_mem a hb))
    by_cases hpa : p a = true
    · rw [List.filter_cons_of_pos hpa,
        List.filter_cons_of_pos (h a (List.mem_cons_self a as) hpa)]
      simpa using ih2
    · rw [List.filter_cons_of_neg (by simpa using hpa)]
      by_cases hqa : q a = true
      · rw [List.filter_cons_of_pos hqa]
        exact le_trans ih2 (Nat.le_succ _)
      · rw [List.filter_cons_of_neg (by simpa using hqa)]
        exact ih2

theorem harrisMaxResponse_nonneg (src : Image ℝ) (smoothing_size structure_size : ℕ)
    (harris_k : ℝ) : 0 ≤ HarrisMaxResponse src smoothing_size structure_size harris_k :=
  foldl_max_init_le
    (fun p : ℤ × ℤ =>
      (HarrisResponseImage src smoothing_size structure_size harris_k).pix p.1 p.2)
    (coords src.width src.height) 0

theorem reduce_eq {α β : Type} (src : Image α) (init : β) (f : β → α → β) :
    Reduce src init f =
      (coords src.width src.height).foldl
        (fun acc p => f acc (src.pix p.1 p.2)) init := rfl

theorem harrisMaxResponse_def (src : Image ℝ) (smoothing_size structure_size : ℕ)
    (harris_k : ℝ) :
    HarrisMaxResponse src smoothing_size structure_size harris_k =
      Reduce (HarrisResponseImage src smoothing_size structure_size harris_k) 0
        (fun acc p => max acc p) := by
  unfold HarrisMaxResponse
  rfl

theorem le_reduce_max (r : Image ℝ) {x y : ℤ} (h : r.inRange x y) :
    r.pix x y ≤ Reduce r 0 (fun acc p => max acc p) := by
  rw [reduce_eq]
  exact foldl_max_le (fun p : ℤ × ℤ => r.pix p.1 p.2) (coords r.width r.height) 0
    ((@mem_coords r.width r.height ((x, y) : ℤ × ℤ)).mpr h)

theorem le_harrisMaxResponse (src : Image ℝ) (smoothing_size structure_size : ℕ)
    (harris_k : ℝ) {x y : ℤ} (h : src.inRange x y) :
    (HarrisResponseImage src smoothing_size structure_size harris_k).pix x y ≤
      HarrisMaxResponse src smoothing_size structure_size harris_k := by
  rw [harrisMaxResponse_def]
  exact le_reduce_max (HarrisResponseImage src smoothing_size structure_size harris_k) h

/-- Claim C6: the vector-data `Image` constructor validates the stride
against the hard-coded constant `width*4` instead of `width*sizeof(P)`:
for `P = StructureTensor` (element size 12 bytes) it accepts width 1,
height 1, stride 4 with a 4-byte buffer even though `4 < 1 * 12`, while the
pointer-data overload (which does use `sizeof(P)`) rejects that stride. -/
theorem claim_C6 :
    ImageVectorCtorOk 4 1 1 4 = true ∧ ((4 : ℤ) < 1 * 12) ∧
      ImagePtrCtorOk 12 1 1 4 = false := by decide

/-- Claim C7: with the input image and all other parameters fixed, raising
the threshold ratio never increases the number of pixels `HarrisCorners`
marks 1; and at ratio 1, if the response image has a strict global maximum
at `(px, py)`, every marked pixel is that argmax pixel. -/
theorem claim_C7 (src : Image ℝ) (smoothing_size structure_size suppression_size : ℕ)
    (harris_k ratio1 ratio2 : ℝ) (h12 : ratio1 ≤ ratio2) :
    countOnes (HarrisCorners src smoothing_size structure_size harris_k ratio2
        suppression_size) ≤
      countOnes (HarrisCorners src smoothing_size structure_size harris_k ratio1
        suppression_size) ∧
    ∀ px py : ℤ, src.inRange px py →
      (∀ qx qy : ℤ, src.inRange qx qy → ¬(qx = px ∧ qy = py) →
        (HarrisResponseImage src smoothing_size structure_size harris_k).pix qx qy <
          (HarrisResponseImage src smoothing_size structure_size harris_k).pix px py) →
      ∀ qx qy : ℤ, src.inRange qx qy →
        (HarrisCorners src smoothing_size structure_size harris_k 1
          suppression_size).pix qx qy = 1 →
        qx = px ∧ qy = py := by
  constructor
  · unfold countOnes
    simp only [HarrisCorners_width, HarrisCorners_height]
    refine length_filter_mono ?_
    intro p hp hpix
    rw [decide_eq_true_eq] at hpix
    rw [decide_eq_true_eq]
    rw [harrisCorners_eq] at hpix
    rw [harrisCorners_eq]
    obtain ⟨hth, hpos, hwin⟩ := (nms_pix_one_iff _ _ _ _ _).mp hpix
    refine (nms_pix_one_iff _ _ _ _ _).mpr ⟨?_, hpos, hwin⟩
    exact le_trans (mul_le_mul_of_nonneg_left h12
      (harrisMaxResponse_nonneg src smoothing_size structure_size harris_k)) hth
  · intro px py hp hmax qx qy hq h1
    rw [harrisCorners_eq] at h1
    obtain ⟨hth, hpos, -⟩ := (nms_pix_one_iff _ _ _ _ _).mp h1
    rw [mul_one] at hth
    by_contra hne
    have hlt := hmax qx qy hq hne
    have hle2 := le_harrisMaxResponse src smoothing_size structure_size harris_k hp
    exact absurd hth (not_le.mpr (lt_of_lt_of_le hlt hle2))

/-- Witness for C7: ratios 0 ≤ 1 on a concrete image. -/
theorem claim_C7_witness :
    (0 : ℝ) ≤ 1 ∧
      countOnes (HarrisCorners zeroImgR 1 1 (4 / 100) 1 1) ≤
        countOnes (HarrisCorners zeroImgR 1 1 (4 / 100) 0 1) :=
  ⟨by norm_num, (claim_C7 zeroImgR 1 1 1 (4 / 100) 0 1 (by norm_num)).1⟩

/-- Claim C8: filtering an image that is constant on its pixel rectangle
with any kernel whose weights sum to 1 reproduces the constant at every
in-range pixel, for all image sizes at least the kernel size. -/
theorem claim_C8 {α : Type} [LinearOrderedCommRing α] (src : Image α)
    (kernel : FilterKernel α) (c : α)
    (hkw : 0 < kernel.width) (hkh : 0 < kernel.height)
    (hww : kernel.width ≤ src.width) (hhh : kernel.height ≤ src.height)
    (hsum : ∑ ky ∈ Finset.range kernel.height, ∑ kx ∈ Finset.range kernel.width,
      kernel.val ky kx = 1)
    (hc : ∀ a b : ℤ, src.inRange a b → src.pix a b = c) :
    ∀ x y : ℤ, src.inRange x y → (Filter2d src kernel).pix x y = c :=
  fun x y hxy =>
    filter2d_const src kernel c (by omega) (by omega) hsum hc x y hxy

/-- Witness for C8: the identity kernel on a constant image. -/
theorem claim_C8_witness :
    0 < oneKernelZ.width ∧
      (∑ ky ∈ Finset.range oneKernelZ.height, ∑ kx ∈ Finset.range oneKernelZ.width,
        oneKernelZ.val ky kx) = 1 ∧
      (Filter2d const42Z oneKernelZ).pix 0 0 = 42 :=
  ⟨by decide, by simp [oneKernelZ],
    claim_C8 const42Z oneKernelZ 42 (by decide) (by decide) (by decide) (by decide)
      (by simp [oneKernelZ]) (fun _ _ _ => rfl) 0 0 (by decide)⟩

/-- Claim C9: on an image that is all zero on its pixel rectangle, for any
configuration whose windows fit the image (the reflection contract), the
maximum response is 0 and `HarrisCorners` returns an all-zero corner map. -/
theorem claim_C9 (src : Image ℝ) (smoothing_size structure_size suppression_size : ℕ)
    (harris_k thresholdRat : ℝ)
    (hsmw : smoothing_size / 2 < src.width) (hsmh : smoothing_size / 2 < src.height)
    (hstw : structure_size / 2 < src.width) (hsth : structure_size / 2 < src.height)
    (hw2 : 1 < src.width) (hh2 : 1 < src.height)
    (hz : ∀ a b : ℤ, src.inRange a b → src.pix a b = 0) :
    HarrisMaxResponse src smoothing_size structure_size harris_k = 0 ∧
    ∀ x y : ℤ, src.inRange x y →
      (HarrisCorners src smoothing_size structure_size harris_k thresholdRat
        suppression_size).pix x y = 0 := by
  refine ⟨harrisMaxResponse_zero src smoothing_size structure_size harris_k hsmw hsmh
    hstw hsth hw2 hh2 hz, fun x y hxy => ?_⟩
  rw [harrisCorners_eq]
  rcases nms_pix_mem (HarrisResponseImage src smoothing_size structure_size harris_k)
    suppression_size
    (HarrisMaxResponse src smoothing_size structure_size harris_k * thresholdRat) x y
    with h0 | h1
  · exact h0
  · exfalso
    obtain ⟨-, hpos, -⟩ := (nms_pix_one_iff _ _ _ _ _).mp h1
    rw [harrisResponseImage_zero src smoothing_size structure_size harris_k hsmw hsmh
      hstw hsth hw2 hh2 hz x y hxy] at hpos
    exact lt_irrefl 0 hpos

/-- Witness for C9: the default-like configuration on a `3 × 3` blank
image. -/
theorem claim_C9_witness :
    HarrisMaxResponse zeroImg3R 3 3 (4 / 100) = 0 ∧
      (HarrisCorners zeroImg3R 3 3 (4 / 100) (1 / 2) 9).pix 1 1 = 0 := by
  obtain ⟨h1, h2⟩ := claim_C9 zeroImg3R 3 3 9 (4 / 100) (1 / 2) (by decide) (by decide)
    (by decide) (by decide) (by decide) (by decide) (fun _ _ _ => rfl)
  exact ⟨h1, h2 1 1 (by decide)⟩

/-- Claim C10: `ToFloat` depends only on the red, green and blue channels:
two images agreeing on those channels at every in-range pixel (their alpha
channels arbitrary) convert to the same luminance image, each output pixel
being `R/255 · 0.2126 + G/255 · 0.7152 + B/255 · 0.0722`. -/
theorem claim_C10 {α : Type} [LinearOrderedField α] (a b : Image Argb32)
    (hw : a.width = b.width) (hh : a.height = b.height)
    (hch : ∀ x y : ℤ, a.inRange x y →
      (a.pix x y).red = (b.pix x y).red ∧ (a.pix x y).green = (b.pix x y).green ∧
        (a.pix x y).blue = (b.pix x y).blue) :
    (ToFloat a : Image α).width = (ToFloat b : Image α).width ∧
    (ToFloat a : Image α).height = (ToFloat b : Image α).height ∧
    ∀ x y : ℤ, a.inRange x y →
      (ToFloat a : Image α).pix x y = (ToFloat b : Image α).pix x y ∧
      (ToFloat a : Image α).pix x y =
        ((a.pix x y).red : α) / 255 * (2126 / 10000) +
          ((a.pix x y).green : α) / 255 * (7152 / 10000) +
          ((a.pix x y).blue : α) / 255 * (722 / 10000) := by
  refine ⟨hw, hh, fun x y hxy => ?_⟩
  obtain ⟨h1, h2, h3⟩ := hch x y hxy
  constructor
  · show (a.pix x y).redFloat * (2126 / 10000 : α) + (a.pix x y).greenFloat * _ +
      (a.pix x y).blueFloat * _ = _
    unfold Argb32.redFloat Argb32.greenFloat Argb32.blueFloat
    rw [h1, h2, h3]
    rfl
  · rfl

/-- Witness for C10: the two images differ in alpha yet convert
identically. -/
theorem claim_C10_witness :
    (argbA.pix 0 0).alpha ≠ (argbB.pix 0 0).alpha ∧
      (ToFloat argbA : Image ℚ).pix 0 0 = (ToFloat argbB : Image ℚ).pix 0 0 :=
  ⟨by decide,
    ((claim_C10 argbA argbB rfl rfl (fun x y _ => by simp only [argbA, argbB]; decide)).2.2 0 0 (by decide)).1⟩

end Harris
